import Mathlib

/-!
# libholtekco2: decoding the Holtek / ZyAura CO2 monitor protocol

A shallow embedding of `src/holtekco2.c` and `include/holtekco2.h`.

* A `uint8_t` is a natural number below 256; a store into a `uint8_t` cell is
  written `% 256` (or `u8` when the stored expression is a C `int` that may be
  negative), a store into a `uint16_t` is `% 65536`.
* A `uint8_t[8]` array is a `List Nat`; `IsBuf8` says that it has eight cells
  and that each one holds a byte.
* The `for (i=0; i<8; i++)` loops are folds over `List.range 8`, the array
  writes are `List.set`.
* The HID transport (hidapi) and the clock are outside the library: what they
  answer is a parameter of the function that calls them, and what the library
  asks of the transport is recorded in a trace.
-/

namespace HoltekCO2

/-! ## Bytes and buffers -/

/-- Conversion of a C `int` to `uint8_t`: reduction modulo 256. -/
def u8 (x : Int) : Nat := (x % 256).toNat

/-- Conversion of a C `int` to `uint16_t`: reduction modulo 65536. -/
def u16 (x : Int) : Nat := (x % 65536).toNat

/-- Reading `a[i]`. -/
def rd (a : List Nat) (i : Nat) : Nat := a.getD i 0

/-- A well-formed `uint8_t[8]`: eight cells, each below 256. -/
def IsBuf8 (b : List Nat) : Prop := b.length = 8 ∧ ∀ x ∈ b, x < 256

instance (b : List Nat) : Decidable (IsBuf8 b) := by
  unfold IsBuf8; infer_instance

/-- The initialiser `{0}` of an eight-byte array. -/
def zero8 : List Nat := List.replicate 8 0

/-! ## `co2_decrypt_buf` (holtekco2.c, lines 105-133) -/

/-- The array `salt` of `co2_decrypt_buf`. -/
def salt : List Nat := [0x48, 0x74, 0x65, 0x6D, 0x70, 0x39, 0x39, 0x65]

/-- The array `shuffle` of `co2_decrypt_buf`. -/
def shuffle : List Nat := [2, 4, 0, 7, 1, 6, 5, 3]

/-- The index expression `(i-1+8)%8`, computed on C `int`s. -/
def prevIdx (i : Nat) : Nat := (((i : Int) - 1 + 8) % 8).toNat

/-- First loop: `phase1[shuffle[i]] = buffer[i]`. -/
def phase1 (buffer : List Nat) : List Nat :=
  (List.range 8).foldl (fun p i => p.set (rd shuffle i) (rd buffer i)) zero8

/-- Second loop: `phase2[i] = phase1[i] ^ key[i]`. -/
def phase2 (key p1 : List Nat) : List Nat :=
  (List.range 8).foldl (fun p i => p.set i ((rd p1 i ^^^ rd key i) % 256)) zero8

/-- Third loop: `phase3[i] = ((phase2[i] >> 3) | (phase2[(i-1+8)%8] << 5)) & 0xff`. -/
def phase3 (p2 : List Nat) : List Nat :=
  (List.range 8).foldl
    (fun p i => p.set i ((((rd p2 i >>> 3) ||| (rd p2 (prevIdx i) <<< 5)) &&& 0xff) % 256)) zero8

/-- Fourth loop: `ctmp[i] = ((salt[i] >> 4) | (salt[i] << 4)) & 0xff`. -/
def ctmp : List Nat :=
  (List.range 8).foldl
    (fun p i => p.set i ((((rd salt i >>> 4) ||| (rd salt i <<< 4)) &&& 0xff) % 256)) zero8

/-- The function `co2_decrypt_buf`: the value left in `buffer`.  The last loop is
`buffer[i] = (0x100 + phase3[i] - ctmp[i]) & 0xff`; the C `int` it computes is
never negative, because `ctmp[i]` is a byte and `0x100 + phase3[i]` is at least 256. -/
def co2_decrypt_buf (key buffer : List Nat) : List Nat :=
  let p3 := phase3 (phase2 key (phase1 buffer))
  (List.range 8).foldl
    (fun b i => b.set i (((0x100 + rd p3 i - rd ctmp i) &&& 0xff) % 256)) buffer

/-! ### The five-step transform as the specification words it -/

/-- Specification, step 1: the permutation table. -/
def specTable : List Nat := [2, 4, 0, 7, 1, 6, 5, 3]

/-- Specification, step 1: "input byte `i` moves to output position `table[i]`";
position `j` of the shuffled array holds the input byte whose table entry is `j`. -/
def specShuffled (frame : List Nat) (j : Nat) : Nat := rd frame (specTable.indexOf j)

/-- Specification, step 2: position-wise XOR with the key. -/
def specXor (key frame : List Nat) (i : Nat) : Nat := specShuffled frame i ^^^ rd key i

/-- Specification, step 3: right shift by 3 of position `i`, OR-ed with the left
shift by 5 of position `(i-1+8) mod 8`, masked to 8 bits. -/
def specRot (key frame : List Nat) (i : Nat) : Nat :=
  ((specXor key frame i >>> 3) |||
    (specXor key frame (((i : Int) - 1 + 8) % 8).toNat <<< 5)) % 256

/-- Specification, step 4: the ASCII bytes of `Htemp99e`. -/
def specSaltText : List Nat := ['H', 't', 'e', 'm', 'p', '9', '9', 'e'].map Char.toNat

/-- Specification, step 4: swapping the high and the low nibble of a byte. -/
def nibbleSwap (x : Nat) : Nat := (x % 16) * 16 + (x / 16) % 16

/-- Specification, step 4: the nibble-swapped salt. -/
def specSalt (i : Nat) : Nat := nibbleSwap (rd specSaltText i)

/-- Specification, step 5: `(256 + rotated[i] - saltRotated[i]) mod 256`. -/
def specOut (key frame : List Nat) (i : Nat) : Nat :=
  (256 + specRot key frame i - specSalt i) % 256

/-- Specification: the plaintext of the five-step transform. -/
def specDecrypt (key frame : List Nat) : List Nat := (List.range 8).map (specOut key frame)

/-! ### `co2_decrypt_buf` with every array access checked -/

/-- Reading `a[i]` with the index checked against the bounds of the array. -/
def rdc (a : List Nat) (i : Int) : Option Nat :=
  if 0 ≤ i then a.get? i.toNat else none

/-- Writing `a[i] = v` with the index checked against the bounds of the array. -/
def wrc (a : List Nat) (i : Int) (v : Nat) : Option (List Nat) :=
  if 0 ≤ i ∧ i.toNat < a.length then some (a.set i.toNat v) else none

/-- The function `co2_decrypt_buf` again, loop by loop, where an access outside
an array gives `none`.  The arrays `salt`, `shuffle`, `phase1`, `phase2`, `phase3`
and `ctmp` have eight cells; `key` and `buffer` have the cells the caller passes. -/
def co2_decrypt_buf_checked (key buffer : List Nat) : Option (List Nat) := do
  let phase1 ← (List.range 8).foldlM
    (fun p (i : Nat) => do
      let t ← rdc shuffle i
      let b ← rdc buffer i
      wrc p t b) zero8
  let phase2 ← (List.range 8).foldlM
    (fun p (i : Nat) => do
      let a ← rdc phase1 i
      let k ← rdc key i
      wrc p i ((a ^^^ k) % 256)) zero8
  let phase3 ← (List.range 8).foldlM
    (fun p (i : Nat) => do
      let a ← rdc phase2 i
      let b ← rdc phase2 (((i : Int) - 1 + 8) % 8)
      wrc p i ((((a >>> 3) ||| (b <<< 5)) &&& 0xff) % 256)) zero8
  let ctmp ← (List.range 8).foldlM
    (fun p (i : Nat) => do
      let a ← rdc salt i
      wrc p i ((((a >>> 4) ||| (a <<< 4)) &&& 0xff) % 256)) zero8
  (List.range 8).foldlM
    (fun b (i : Nat) => do
      let r ← rdc phase3 i
      let c ← rdc ctmp i
      wrc b i (((0x100 + r - c) &&& 0xff) % 256)) buffer

/-! ### Eight bytes as one 64-bit word -/

/-- An 8-byte array read as one 64-bit big-endian word, `x[0]` most significant. -/
def wordBE (x : List Nat) : Nat := (List.range 8).foldl (fun w i => w * 256 + rd x i) 0

/-- The big-endian byte representation of a 64-bit word. -/
def bytesBE (w : Nat) : List Nat := (List.range 8).map (fun i => (w >>> (8 * (7 - i))) % 256)

/-- Rotation of a 64-bit word to the right by `n` bits. -/
def rotr64 (w n : Nat) : Nat := ((w >>> n) ||| (w <<< (64 - n))) % 2 ^ 64

/-- Rotation of a 64-bit word to the left by `n` bits. -/
def rotl64 (w n : Nat) : Nat := ((w <<< n) ||| (w >>> (64 - n))) % 2 ^ 64

/-! ### The inverse transform

The library has no encryption function; this is the inverse of `co2_decrypt_buf`
step by step: add the nibble-swapped salt modulo 256, rotate the 64-bit word
left by 3, XOR the key, undo the shuffle. -/

/-- Inverse of the last loop: adding the nibble-swapped salt modulo 256. -/
def invSalt (p : List Nat) : List Nat := (List.range 8).map (fun i => (rd p i + specSalt i) % 256)

/-- Inverse of the third loop: rotating the 64-bit word left by 3. -/
def invRot (p3 : List Nat) : List Nat := bytesBE (rotl64 (wordBE p3) 3)

/-- Inverse of the second loop: XOR with the key. -/
def invXor (key p2 : List Nat) : List Nat := (List.range 8).map (fun i => rd p2 i ^^^ rd key i)

/-- Inverse of the first loop: frame byte `i` is taken back from position `table[i]`. -/
def invShuffle (p1 : List Nat) : List Nat := (List.range 8).map (fun i => rd p1 (rd specTable i))

/-- The raw frame that decrypts to the plaintext `p` under `key`. -/
def invDecrypt (key p : List Nat) : List Nat := invShuffle (invXor key (invRot (invSalt p)))

/-! ## `co2_gen_usb_enc_key` (holtekco2.c, lines 63-96)

The clock is outside the library: the `struct tm` that `localtime` answers is
the parameter `local_time`.  Its fields are C `int`s; they are integers here,
the sums the function forms from them being far from the bounds of `int`. -/

/-- The fields of `struct tm` that the library reads. -/
structure Tm where
  tm_sec : Int
  tm_min : Int
  tm_hour : Int
  tm_mday : Int
  tm_mon : Int
  tm_year : Int
deriving DecidableEq, Repr

/-- The function `co2_gen_usb_enc_key`, statement by statement: the value left in
`usb_enc_key`.  `next_month` and `time_sec` are `uint8_t` locals. -/
def co2_gen_usb_enc_key (local_time : Tm) (usb_enc_key : List Nat) : List Nat :=
  let k := usb_enc_key
  let k := k.set 0 (u8 (local_time.tm_mday + local_time.tm_sec + 66))
  let k := k.set 1 (u8 (((u16 ((u16 local_time.tm_year : Int) + 1900) >>> 8 : Nat) : Int) - 104))
  let k := k.set 2 (u8 (local_time.tm_hour + local_time.tm_min + 90))
  let k := k.set 3 (u8 (8 * local_time.tm_sec - 34))
  let k := k.set 4 (u8 (local_time.tm_min - 60))
  let k := k.set 5 (u8 (local_time.tm_year + 108))
  let k := k.set 6 (u8 (4 * (local_time.tm_sec + 51)))
  let next_month := u8 (local_time.tm_mon + 1)
  let time_sec := u8 local_time.tm_sec
  let time_sec := u8 ((next_month : Int) + (time_sec : Int))
  let time_sec := u8 ((time_sec : Int) - 95)
  let k := k.set 7 time_sec
  let k := k.set 0 ((time_sec ^^^ rd k 5 ^^^ rd k 2) % 256)
  let time_sec := (rd k 2 ^^^ rd k 6 ^^^ time_sec) % 256
  let k := k.set 1 time_sec
  let k := k.set 2 ((rd k 5 ^^^ rd k 6 ^^^ time_sec) % 256)
  let time_sec := (rd k 6 ^^^ rd k 3) % 256
  let time_sec := (rd k 4 ^^^ time_sec) % 256
  let k := k.set 3 time_sec
  let next_month := (rd k 5 ^^^ time_sec ^^^ rd k 0) % 256
  let k := k.set 5 ((rd k 2 ^^^ rd k 0 ^^^ rd k 7) % 256)
  let k := k.set 4 next_month
  let k := k.set 6 next_month
  let k := k.set 7 ((next_month ^^^ rd k 0 ^^^ rd k 3) % 256)
  k

/-! ### The two passes of `co2_gen_usb_enc_key` -/

/-- Lines 72-83 of `co2_gen_usb_enc_key`: the array and the local `time_sec` after
the first pass, which fills the eight cells from the time fields. -/
def gen_key_step1 (local_time : Tm) (usb_enc_key : List Nat) : List Nat × Nat :=
  let k := usb_enc_key
  let k := k.set 0 (u8 (local_time.tm_mday + local_time.tm_sec + 66))
  let k := k.set 1 (u8 (((u16 ((u16 local_time.tm_year : Int) + 1900) >>> 8 : Nat) : Int) - 104))
  let k := k.set 2 (u8 (local_time.tm_hour + local_time.tm_min + 90))
  let k := k.set 3 (u8 (8 * local_time.tm_sec - 34))
  let k := k.set 4 (u8 (local_time.tm_min - 60))
  let k := k.set 5 (u8 (local_time.tm_year + 108))
  let k := k.set 6 (u8 (4 * (local_time.tm_sec + 51)))
  let next_month := u8 (local_time.tm_mon + 1)
  let time_sec := u8 local_time.tm_sec
  let time_sec := u8 ((next_month : Int) + (time_sec : Int))
  let time_sec := u8 ((time_sec : Int) - 95)
  let k := k.set 7 time_sec
  (k, time_sec)

/-- Lines 84-95 of `co2_gen_usb_enc_key`: the mixing pass, from the array and the
local `time_sec` that the first pass leaves. -/
def gen_key_mix (usb_enc_key : List Nat) (time_sec : Nat) : List Nat :=
  let k := usb_enc_key
  let k := k.set 0 ((time_sec ^^^ rd k 5 ^^^ rd k 2) % 256)
  let time_sec := (rd k 2 ^^^ rd k 6 ^^^ time_sec) % 256
  let k := k.set 1 time_sec
  let k := k.set 2 ((rd k 5 ^^^ rd k 6 ^^^ time_sec) % 256)
  let time_sec := (rd k 6 ^^^ rd k 3) % 256
  let time_sec := (rd k 4 ^^^ time_sec) % 256
  let k := k.set 3 time_sec
  let next_month := (rd k 5 ^^^ time_sec ^^^ rd k 0) % 256
  let k := k.set 5 ((rd k 2 ^^^ rd k 0 ^^^ rd k 7) % 256)
  let k := k.set 4 next_month
  let k := k.set 6 next_month
  let k := k.set 7 ((next_month ^^^ rd k 0 ^^^ rd k 3) % 256)
  k

/-! ### The key recipe as the specification words it -/

/-- Specification: a value "truncated to 8 bits (modulo 256)". -/
def specByte (x : Int) : Nat := (x % 256).toNat

/-- Specification, section 4.1: step 1 computes `b2 .. b6` and `t`, step 2 mixes
them by XOR in the listed dependency order. -/
def specKey (_day sec hour min year1900 month : Int) : List Nat :=
  let b2 := specByte (hour + min + 90)
  let b3 := specByte (8 * sec - 34)
  let b4 := specByte (min - 60)
  let b5 := specByte (year1900 + 108)
  let b6 := specByte (4 * (sec + 51))
  let t := specByte ((month + 1) + sec - 95)
  let out0 := t ^^^ b5 ^^^ b2
  let t1 := b2 ^^^ b6 ^^^ t
  let out1 := t1
  let out2 := b5 ^^^ b6 ^^^ t1
  let t2 := b6 ^^^ b3
  let t3 := b4 ^^^ t2
  let out3 := t3
  let nm := b5 ^^^ t3 ^^^ out0
  let out5 := out2 ^^^ out0 ^^^ t
  let out4 := nm
  let out6 := nm
  let out7 := nm ^^^ out0 ^^^ out3
  [out0, out1, out2, out3, out4, out5, out6, out7]

/-! ## The session: the static key and the HID transport

`static uint8_t key[8] = {0}` is the field `key` of the library state.  The
functions of hidapi are outside the library; each call the library makes is
appended to `calls`, and what hidapi answers is a parameter of the calling
function. -/

/-- The macro `HOLTEK_CO2_VID`. -/
def HOLTEK_CO2_VID : Nat := 0x04D9

/-- The macro `HOLTEK_CO2_PID`. -/
def HOLTEK_CO2_PID : Nat := 0xA052

/-- A non-null `co2_device *`; the null pointer is `none` of `Option co2_device`. -/
abbrev co2_device := Nat

/-- A call of a hidapi function, with the arguments the library passes. -/
inductive HidCall where
  | hid_open_path (path : String)
  | hid_open (vendor_id product_id : Nat)
  | hid_send_feature_report (device : co2_device) (data : List Nat) (length : Nat)
  | hid_read (device : co2_device) (length : Nat)
  | hid_close (device : co2_device)
deriving DecidableEq, Repr

/-- The state of the library: the static `key` and the calls made to hidapi so
far, oldest first. -/
structure Lib where
  key : List Nat
  calls : List HidCall
deriving DecidableEq, Repr

/-- The state at program start: `key` is all zero, hidapi has not been called. -/
def Lib.init : Lib := ⟨zero8, []⟩

/-- The call `memcpy(dst + off, src, n)` on byte arrays. -/
def memcpy (dst : List Nat) (off : Nat) (src : List Nat) (n : Nat) : List Nat :=
  (List.range n).foldl (fun d i => d.set (off + i) (rd src i)) dst

/-- The function `co2_send_init_packet`; `sent` is what `hid_send_feature_report`
answers, `now` what `localtime` answers. -/
def co2_send_init_packet (device : co2_device) (now : Tm) (sent : Int) (s : Lib) : Int × Lib :=
  let enc_key_buf := List.replicate 9 0
  let key := co2_gen_usb_enc_key now s.key
  let enc_key_buf := memcpy enc_key_buf 1 key 8
  (sent, ⟨key, s.calls ++ [HidCall.hid_send_feature_report device enc_key_buf 9]⟩)

/-- The function `co2_open_device_path`; `opened` is what `hid_open_path` answers. -/
def co2_open_device_path (path : String) (opened : Option co2_device) (now : Tm) (sent : Int)
    (s : Lib) : Option co2_device × Lib :=
  let s : Lib := ⟨s.key, s.calls ++ [HidCall.hid_open_path path]⟩
  match opened with
  | some dev =>
    let (res, s) := co2_send_init_packet dev now sent s
    if res ≠ 9 then
      (none, ⟨s.key, s.calls ++ [HidCall.hid_close dev]⟩)
    else (some dev, s)
  | none => (none, s)

/-- The function `co2_open_first_device`; `opened` is what `hid_open` answers. -/
def co2_open_first_device (opened : Option co2_device) (now : Tm) (sent : Int)
    (s : Lib) : Option co2_device × Lib :=
  let s : Lib := ⟨s.key, s.calls ++ [HidCall.hid_open HOLTEK_CO2_VID HOLTEK_CO2_PID]⟩
  match opened with
  | some dev =>
    let (res, s) := co2_send_init_packet dev now sent s
    if res ≠ 9 then
      (none, ⟨s.key, s.calls ++ [HidCall.hid_close dev]⟩)
    else (some dev, s)
  | none => (none, s)

/-- The function `co2_raw_open_device_path`. -/
def co2_raw_open_device_path (path : String) (opened : Option co2_device)
    (s : Lib) : Option co2_device × Lib :=
  (opened, ⟨s.key, s.calls ++ [HidCall.hid_open_path path]⟩)

/-- The function `co2_raw_open_first_device`. -/
def co2_raw_open_first_device (opened : Option co2_device) (s : Lib) : Option co2_device × Lib :=
  (opened, ⟨s.key, s.calls ++ [HidCall.hid_open HOLTEK_CO2_VID HOLTEK_CO2_PID]⟩)

/-- The function `co2_close`. -/
def co2_close (device : co2_device) (s : Lib) : Lib :=
  ⟨s.key, s.calls ++ [HidCall.hid_close device]⟩

/-! ## Reading a measurement (holtekco2.c, lines 135-165) -/

/-- The enumerator `CO2` of `struct tag_co2_device_data`. -/
def CO2 : Nat := 0x50

/-- The enumerator `TEMP`. -/
def TEMP : Nat := 0x42

/-- The enumerator `HUMIDITY`. -/
def HUMIDITY : Nat := 0x44

/-- The `struct tag_co2_device_data`: `uint8_t tag; uint16_t value; uint8_t checksum;
bool valid`. -/
structure co2_device_data where
  tag : Nat
  value : Nat
  checksum : Nat
  valid : Bool
deriving DecidableEq, Repr

/-- The statement `valid &= cond` on a `bool`: both sides are promoted to `int`
(0 or 1), AND-ed bitwise, and the result is converted back to `bool`. -/
def andAssign (valid cond : Bool) : Bool := (valid.toNat &&& cond.toNat) != 0

/-- The function `co2_read_data`; `res` is what `hid_read` answers and `data` is
what it leaves in `buf`. -/
def co2_read_data (device : co2_device) (res : Int) (data : List Nat)
    (s : Lib) : co2_device_data × Lib :=
  let result : co2_device_data := ⟨0, 0, 0, false⟩
  let buf := data
  let s : Lib := ⟨s.key, s.calls ++ [HidCall.hid_read device 8]⟩
  if res = 8 then
    let buf := co2_decrypt_buf s.key buf
    let valid := true
    let valid := andAssign valid (rd buf 4 == 0x0d)
    let sum := (rd buf 0 + rd buf 1 + rd buf 2) % 256
    let valid := andAssign valid (sum == rd buf 3)
    let result : co2_device_data :=
      ⟨rd buf 0, (((rd buf 1 % 65536) <<< 8) ||| rd buf 2) % 65536, rd buf 3, valid⟩
    (result, s)
  else (result, s)

/-- The function `co2_raw_read_decode_data`: the `int` returned and the value left
in `buffer`; `data` is what `hid_read` leaves in `buffer`. -/
def co2_raw_read_decode_data (device : co2_device) (res : Int) (data : List Nat)
    (s : Lib) : (Int × List Nat) × Lib :=
  ((res, co2_decrypt_buf s.key data), ⟨s.key, s.calls ++ [HidCall.hid_read device 8]⟩)

/-- The function `co2_raw_read_data`. -/
def co2_raw_read_data (device : co2_device) (res : Int) (data : List Nat)
    (s : Lib) : (Int × List Nat) × Lib :=
  ((res, data), ⟨s.key, s.calls ++ [HidCall.hid_read device 8]⟩)

/-! ### Sequences of library calls -/

/-- A call of a library function that touches the session, together with what
the transport and the clock answer during the call. -/
inductive Op where
  | send_init_packet (device : co2_device) (now : Tm) (sent : Int)
  | open_device_path (path : String) (opened : Option co2_device) (now : Tm) (sent : Int)
  | open_first_device (opened : Option co2_device) (now : Tm) (sent : Int)
  | raw_open_device_path (path : String) (opened : Option co2_device)
  | raw_open_first_device (opened : Option co2_device)
  | close (device : co2_device)
  | read_data (device : co2_device) (res : Int) (data : List Nat)
  | raw_read_decode_data (device : co2_device) (res : Int) (data : List Nat)
  | raw_read_data (device : co2_device) (res : Int) (data : List Nat)
deriving DecidableEq, Repr

/-- The state after one library call. -/
def Lib.step (s : Lib) : Op → Lib
  | .send_init_packet device now sent => (co2_send_init_packet device now sent s).2
  | .open_device_path path opened now sent => (co2_open_device_path path opened now sent s).2
  | .open_first_device opened now sent => (co2_open_first_device opened now sent s).2
  | .raw_open_device_path path opened => (co2_raw_open_device_path path opened s).2
  | .raw_open_first_device opened => (co2_raw_open_first_device opened s).2
  | .close device => co2_close device s
  | .read_data device res data => (co2_read_data device res data s).2
  | .raw_read_decode_data device res data => (co2_raw_read_decode_data device res data s).2
  | .raw_read_data device res data => (co2_raw_read_data device res data s).2

/-- The state after a sequence of library calls. -/
def Lib.run (s : Lib) (ops : List Op) : Lib := ops.foldl Lib.step s

/-- The key the device was last given: bytes 1..8 of the last feature report
handed to `hid_send_feature_report`, if there is one. -/
def lastSentKey (calls : List HidCall) : Option (List Nat) :=
  calls.foldl
    (fun acc c => match c with
      | HidCall.hid_send_feature_report _ data _ => some (data.drop 1)
      | _ => acc) none

/-- The session invariant: the static key has eight cells and is the key last
handed to the transport. -/
def Lib.Synced (s : Lib) : Prop := s.key.length = 8 ∧ lastSentKey s.calls = some s.key

/-! ## Unit conversions (holtekco2.c, lines 167-177)

The functions return `double`; here the formulas are read over the rationals. -/

/-- The function `co2_get_celsius_temp`. -/
def co2_get_celsius_temp (value : Nat) : ℚ := (value : ℚ) / 16.0 - 273.15

/-- The function `co2_get_fahrenheit_temp`. -/
def co2_get_fahrenheit_temp (value : Nat) : ℚ := ((value : ℚ) / 16.0 - 273.15) * 1.8 + 32

/-- The function `co2_get_relative_humidity`. -/
def co2_get_relative_humidity (value : Nat) : ℚ := (value : ℚ) / 100.0

/-! # Theorems -/

/-! ## Bytes -/

theorem and_ff (x : Nat) : x &&& 0xff = x % 256 := Nat.and_pow_two_sub_one_eq_mod x 8

theorem xor_lt_256 {a b : Nat} (ha : a < 256) (hb : b < 256) : a ^^^ b < 256 :=
  Nat.xor_lt_two_pow (n := 8) ha hb

theorem xor_byte {a b : Nat} (ha : a < 256) (hb : b < 256) : (a ^^^ b) % 256 = a ^^^ b :=
  Nat.mod_eq_of_lt (xor_lt_256 ha hb)

theorem xor_mod_256 (a b : Nat) : (a ^^^ b) % 256 = (a % 256) ^^^ (b % 256) := by
  apply Nat.eq_of_testBit_eq
  intro i
  have h : (256 : Nat) = 2 ^ 8 := by norm_num
  rw [h]
  simp only [Nat.testBit_mod_two_pow, Nat.testBit_xor]
  by_cases hi : i < 8 <;> simp [hi]

theorem u8_lt (x : Int) : u8 x < 256 := by
  unfold u8; omega

theorem u8_mod (x : Int) : u8 x % 256 = u8 x := Nat.mod_eq_of_lt (u8_lt x)

theorem u8_eq_specByte (x : Int) : u8 x = specByte x := rfl

/-- The three truncating statements that compute `time_sec` amount to one
truncation of `tm_mon + 1 + tm_sec - 95`. -/
theorem u8_time_sec (mon sec : Int) :
    u8 ((u8 ((u8 (mon + 1) : Int) + (u8 sec : Int)) : Int) - 95) = u8 (mon + 1 + sec - 95) := by
  unfold u8; omega

theorem length8_cases {b : List Nat} (h : b.length = 8) :
    ∃ a0 a1 a2 a3 a4 a5 a6 a7, b = [a0, a1, a2, a3, a4, a5, a6, a7] := by
  match b, h with
  | [a0, a1, a2, a3, a4, a5, a6, a7], _ => exact ⟨a0, a1, a2, a3, a4, a5, a6, a7, rfl⟩

theorem IsBuf8.cases {b : List Nat} (h : IsBuf8 b) :
    ∃ a0 a1 a2 a3 a4 a5 a6 a7, b = [a0, a1, a2, a3, a4, a5, a6, a7] ∧
      a0 < 256 ∧ a1 < 256 ∧ a2 < 256 ∧ a3 < 256 ∧ a4 < 256 ∧ a5 < 256 ∧ a6 < 256 ∧ a7 < 256 := by
  obtain ⟨hl, hb⟩ := h
  obtain ⟨a0, a1, a2, a3, a4, a5, a6, a7, rfl⟩ := length8_cases hl
  refine ⟨a0, a1, a2, a3, a4, a5, a6, a7, rfl, ?_⟩
  refine ⟨?_, ?_, ?_, ?_, ?_, ?_, ?_, ?_⟩ <;> apply hb <;> simp

/-! ## C1: `co2_decrypt_buf` is the five-step transform -/

/-- C1: for every 8-byte key and every 8-byte frame, `co2_decrypt_buf` leaves in the
buffer exactly the result of the five-step transform of the specification
(shuffle by the table `[2,4,0,7,1,6,5,3]`, XOR with the key, rotate, nibble-swapped
salt, combine); the first conjunct says that the shuffled array of the
specification is the one with `shuffled[T[i]] = frame[i]`. -/
theorem co2_decrypt_buf_five_step (key frame : List Nat) (hk : IsBuf8 key) (hf : IsBuf8 frame) :
    (∀ i, i < 8 → specShuffled frame (rd specTable i) = rd frame i) ∧
    co2_decrypt_buf key frame = specDecrypt key frame := by
  obtain ⟨k0, k1, k2, k3, k4, k5, k6, k7, rfl, hk0, hk1, hk2, hk3, hk4, hk5, hk6, hk7⟩ := hk.cases
  obtain ⟨f0, f1, f2, f3, f4, f5, f6, f7, rfl, hf0, hf1, hf2, hf3, hf4, hf5, hf6, hf7⟩ := hf.cases
  constructor
  · intro i hi
    interval_cases i <;> rfl
  · simp [co2_decrypt_buf, phase3, phase2, phase1, ctmp, salt, shuffle, rd, prevIdx, zero8,
      List.range, List.range.loop, specDecrypt, specOut, specRot, specXor, specShuffled,
      specSalt, specSaltText, specTable, nibbleSwap, List.indexOf, List.findIdx_cons, and_ff,
      xor_byte, *]

/-- C1, witness: the all-zero key and the all-zero frame are 8-byte arrays, and
there the theorem applies; the plaintext is `7C B9 AA 2A F9 6D 6D AA`. -/
theorem co2_decrypt_buf_five_step_witness :
    IsBuf8 zero8 ∧ IsBuf8 zero8 ∧
      ((∀ i, i < 8 → specShuffled zero8 (rd specTable i) = rd zero8 i) ∧
        co2_decrypt_buf zero8 zero8 = specDecrypt zero8 zero8) ∧
      co2_decrypt_buf zero8 zero8 = [0x7C, 0xB9, 0xAA, 0x2A, 0xF9, 0x6D, 0x6D, 0xAA] :=
  ⟨by decide, by decide, co2_decrypt_buf_five_step zero8 zero8 (by decide) (by decide),
    by decide⟩

/-! ## C2: `co2_gen_usb_enc_key` is the two-step recipe -/

/-- C2: for every local time, the key written by `co2_gen_usb_enc_key` into an
8-byte array equals, byte for byte, the two-step recipe of the specification
(section 4.1), all arithmetic being modulo 256. -/
theorem co2_gen_usb_enc_key_eq_spec (local_time : Tm) (usb_enc_key : List Nat)
    (h : usb_enc_key.length = 8) :
    co2_gen_usb_enc_key local_time usb_enc_key =
      specKey local_time.tm_mday local_time.tm_sec local_time.tm_hour local_time.tm_min
        local_time.tm_year local_time.tm_mon := by
  obtain ⟨a0, a1, a2, a3, a4, a5, a6, a7, rfl⟩ := length8_cases h
  simp only [co2_gen_usb_enc_key, specKey, rd, List.set, List.getD_cons_zero, List.getD_cons_succ,
    u8_time_sec, ← u8_eq_specByte, xor_mod_256, Nat.mod_mod, u8_mod]

/-- C2, witness: second 37 of 22:15 on 17 October 2026, written into a zeroed array. -/
theorem co2_gen_usb_enc_key_eq_spec_witness :
    zero8.length = 8 ∧
      co2_gen_usb_enc_key ⟨37, 15, 22, 17, 9, 126⟩ zero8 = specKey 17 37 22 15 126 9 :=
  ⟨by decide, co2_gen_usb_enc_key_eq_spec ⟨37, 15, 22, 17, 9, 126⟩ zero8 (by decide)⟩

/-! ## The plaintext and the record built from it -/

/-- What `co2_decrypt_buf` leaves in an 8-byte buffer is again an 8-byte array. -/
theorem co2_decrypt_buf_isBuf8 (key frame : List Nat) (hf : frame.length = 8) :
    IsBuf8 (co2_decrypt_buf key frame) := by
  obtain ⟨f0, f1, f2, f3, f4, f5, f6, f7, rfl⟩ := length8_cases hf
  simp only [co2_decrypt_buf, List.range, List.range.loop, List.foldl, List.set]
  refine ⟨rfl, ?_⟩
  intro x hx
  simp only [List.mem_cons, List.mem_singleton, List.not_mem_nil, or_false] at hx
  rcases hx with h | h | h | h | h | h | h | h <;> rw [h] <;> exact Nat.mod_lt _ (by norm_num)

theorem rd_lt_of_isBuf8 {b : List Nat} (h : IsBuf8 b) (i : Nat) : rd b i < 256 := by
  obtain ⟨a0, a1, a2, a3, a4, a5, a6, a7, rfl, h0, h1, h2, h3, h4, h5, h6, h7⟩ := h.cases
  match i with
  | 0 | 1 | 2 | 3 | 4 | 5 | 6 | 7 => simpa [rd]
  | n + 8 => simp [rd]

/-- The expression `((uint16_t)a) << 8 | b` on two bytes, stored into a `uint16_t`. -/
theorem value_u16 {a b : Nat} (ha : a < 256) (hb : b < 256) :
    (((a % 65536) <<< 8) ||| b) % 65536 = (a <<< 8) ||| b ∧ ((a <<< 8) ||| b) = 256 * a + b := by
  have h : (a <<< 8) ||| b = 256 * a + b := by
    have h8 : (256 : Nat) = 2 ^ 8 := by norm_num
    rw [Nat.shiftLeft_eq, Nat.mul_comm, ← h8, h8, ← Nat.mul_add_lt_is_or (by omega) a]
  rw [Nat.mod_eq_of_lt (by omega : a < 65536), h]
  exact ⟨Nat.mod_eq_of_lt (by omega), rfl⟩

theorem andAssign_eq (a b : Bool) : andAssign a b = (a && b) := by
  cases a <;> cases b <;> rfl

/-- The `valid` flag computed by `co2_read_data` on a read of 8 bytes: the two
`valid &= ...` statements amount to a conjunction of the two comparisons. -/
theorem read_valid_eq (device : co2_device) (frame : List Nat) (s : Lib) :
    (co2_read_data device 8 frame s).1.valid =
      (rd (co2_decrypt_buf s.key frame) 4 == 0x0d &&
        (rd (co2_decrypt_buf s.key frame) 0 + rd (co2_decrypt_buf s.key frame) 1 +
          rd (co2_decrypt_buf s.key frame) 2) % 256 == rd (co2_decrypt_buf s.key frame) 3) := by
  simp only [co2_read_data, if_true, andAssign_eq, Bool.true_and]

/-! ## C3: the validity law -/

/-- C3: when `hid_read` answers 8, the `valid` flag of the record returned by
`co2_read_data` is true if and only if the plaintext `p` (the frame after
`co2_decrypt_buf` with the session key) has `p[4] == 0x0d` and
`p[3] == (p[0] + p[1] + p[2]) mod 256`. -/
theorem co2_read_data_valid_iff (device : co2_device) (frame : List Nat) (s : Lib) :
    (co2_read_data device 8 frame s).1.valid = true ↔
      rd (co2_decrypt_buf s.key frame) 4 = 0x0d ∧
      rd (co2_decrypt_buf s.key frame) 3 =
        (rd (co2_decrypt_buf s.key frame) 0 + rd (co2_decrypt_buf s.key frame) 1 +
          rd (co2_decrypt_buf s.key frame) 2) % 256 := by
  rw [read_valid_eq, Bool.and_eq_true, beq_iff_eq, beq_iff_eq]
  constructor
  · rintro ⟨h4, hsum⟩
    exact ⟨h4, hsum.symm⟩
  · rintro ⟨h4, hsum⟩
    exact ⟨h4, hsum.symm⟩

/-! ## C4: the fields of the record -/

/-- C4: for every 8-byte frame, valid or not, the record built by `co2_read_data`
from the plaintext `p` has `tag == p[0]`, `value == (p[1] << 8) | p[2]` (a 16-bit
number) and `checksum == p[3]`; nothing is assumed about `valid`. -/
theorem co2_read_data_fields (device : co2_device) (frame : List Nat) (s : Lib)
    (hf : frame.length = 8) :
    (co2_read_data device 8 frame s).1.tag = rd (co2_decrypt_buf s.key frame) 0 ∧
    (co2_read_data device 8 frame s).1.value =
      ((rd (co2_decrypt_buf s.key frame) 1 <<< 8) ||| rd (co2_decrypt_buf s.key frame) 2) ∧
    (co2_read_data device 8 frame s).1.value < 65536 ∧
    (co2_read_data device 8 frame s).1.checksum = rd (co2_decrypt_buf s.key frame) 3 := by
  have hp := co2_decrypt_buf_isBuf8 s.key frame hf
  have h1 := rd_lt_of_isBuf8 hp 1
  have h2 := rd_lt_of_isBuf8 hp 2
  obtain ⟨hv, hv2⟩ := value_u16 h1 h2
  have hval : (co2_read_data device 8 frame s).1.value =
      ((rd (co2_decrypt_buf s.key frame) 1 <<< 8) ||| rd (co2_decrypt_buf s.key frame) 2) := by
    simp only [co2_read_data, if_true]; exact hv
  refine ⟨by simp only [co2_read_data, if_true], hval, ?_, by simp only [co2_read_data, if_true]⟩
  rw [hval, hv2]; omega

/-- C4, witness: the all-zero frame read at program start; its plaintext
`7C B9 AA 2A F9 ..` is not valid, and the fields are populated all the same. -/
theorem co2_read_data_fields_witness :
    zero8.length = 8 ∧
      ((co2_read_data 1 8 zero8 Lib.init).1.tag = rd (co2_decrypt_buf Lib.init.key zero8) 0 ∧
      (co2_read_data 1 8 zero8 Lib.init).1.value =
        ((rd (co2_decrypt_buf Lib.init.key zero8) 1 <<< 8) |||
          rd (co2_decrypt_buf Lib.init.key zero8) 2) ∧
      (co2_read_data 1 8 zero8 Lib.init).1.value < 65536 ∧
      (co2_read_data 1 8 zero8 Lib.init).1.checksum = rd (co2_decrypt_buf Lib.init.key zero8) 3) ∧
      (co2_read_data 1 8 zero8 Lib.init).1 = ⟨0x7C, 0xB9AA, 0x2A, false⟩ :=
  ⟨by decide, co2_read_data_fields 1 zero8 Lib.init (by decide), by decide⟩

/-! ## C5: the end-to-end scenario -/

/-- C5: for every session key and raw frame whose plaintext has `p[0] = 0x50`,
`p[1] = 0x03`, `p[2] = 0xE8`, `p[3] = (0x50 + 0x03 + 0xE8) & 0xff` and `p[4] = 0x0d`,
`co2_read_data` reports tag `CO2`, value 1000 and `valid = true`. -/
theorem co2_read_data_end_to_end (device : co2_device) (frame : List Nat) (s : Lib)
    (h0 : rd (co2_decrypt_buf s.key frame) 0 = 0x50)
    (h1 : rd (co2_decrypt_buf s.key frame) 1 = 0x03)
    (h2 : rd (co2_decrypt_buf s.key frame) 2 = 0xE8)
    (h3 : rd (co2_decrypt_buf s.key frame) 3 = (0x50 + 0x03 + 0xE8) % 256)
    (h4 : rd (co2_decrypt_buf s.key frame) 4 = 0x0d) :
    (co2_read_data device 8 frame s).1.tag = CO2 ∧
    (co2_read_data device 8 frame s).1.value = 1000 ∧
    (co2_read_data device 8 frame s).1.valid = true := by
  simp only [co2_read_data, if_true, h0, h1, h2, h3, h4]
  decide

/-- C5, witness: the key of 22:15:37 on 17 October 2026 and the frame
`B5 BE E7 5C 9E 80 4C 3D`, whose plaintext is `50 03 E8 3B 0D 00 00 00`. -/
theorem co2_read_data_end_to_end_witness :
    rd (co2_decrypt_buf [69, 207, 69, 181, 26, 208, 26, 234] [181, 190, 231, 92, 158, 128, 76, 61]) 0 = 0x50 ∧
    rd (co2_decrypt_buf [69, 207, 69, 181, 26, 208, 26, 234] [181, 190, 231, 92, 158, 128, 76, 61]) 1 = 0x03 ∧
    rd (co2_decrypt_buf [69, 207, 69, 181, 26, 208, 26, 234] [181, 190, 231, 92, 158, 128, 76, 61]) 2 = 0xE8 ∧
    rd (co2_decrypt_buf [69, 207, 69, 181, 26, 208, 26, 234] [181, 190, 231, 92, 158, 128, 76, 61]) 3 =
      (0x50 + 0x03 + 0xE8) % 256 ∧
    rd (co2_decrypt_buf [69, 207, 69, 181, 26, 208, 26, 234] [181, 190, 231, 92, 158, 128, 76, 61]) 4 = 0x0d ∧
    ((co2_read_data 1 8 [181, 190, 231, 92, 158, 128, 76, 61] ⟨[69, 207, 69, 181, 26, 208, 26, 234], []⟩).1.tag = CO2 ∧
     (co2_read_data 1 8 [181, 190, 231, 92, 158, 128, 76, 61] ⟨[69, 207, 69, 181, 26, 208, 26, 234], []⟩).1.value = 1000 ∧
     (co2_read_data 1 8 [181, 190, 231, 92, 158, 128, 76, 61] ⟨[69, 207, 69, 181, 26, 208, 26, 234], []⟩).1.valid = true) :=
  ⟨by decide, by decide, by decide, by decide, by decide,
    co2_read_data_end_to_end 1 [181, 190, 231, 92, 158, 128, 76, 61]
      ⟨[69, 207, 69, 181, 26, 208, 26, 234], []⟩ (by decide) (by decide) (by decide) (by decide) (by decide)⟩

/-! ## C6: the tag mapping -/

/-- C6: the returned tag equals `CO2` exactly when `p[0] = 0x50`, `TEMP` exactly when
`p[0] = 0x42` and `HUMIDITY` exactly when `p[0] = 0x44`; and whatever the tag byte
is, one of these or any other, the record carries that tag and the raw value
`(p[1] << 8) | p[2]`. -/
theorem co2_read_data_tag_mapping (device : co2_device) (frame : List Nat) (s : Lib)
    (hf : frame.length = 8) :
    ((co2_read_data device 8 frame s).1.tag = CO2 ↔ rd (co2_decrypt_buf s.key frame) 0 = 0x50) ∧
    ((co2_read_data device 8 frame s).1.tag = TEMP ↔ rd (co2_decrypt_buf s.key frame) 0 = 0x42) ∧
    ((co2_read_data device 8 frame s).1.tag = HUMIDITY ↔
      rd (co2_decrypt_buf s.key frame) 0 = 0x44) ∧
    (co2_read_data device 8 frame s).1.tag = rd (co2_decrypt_buf s.key frame) 0 ∧
    (co2_read_data device 8 frame s).1.value =
      ((rd (co2_decrypt_buf s.key frame) 1 <<< 8) ||| rd (co2_decrypt_buf s.key frame) 2) := by
  have hp := co2_decrypt_buf_isBuf8 s.key frame hf
  have hv := (value_u16 (rd_lt_of_isBuf8 hp 1) (rd_lt_of_isBuf8 hp 2)).1
  have ht : (co2_read_data device 8 frame s).1.tag = rd (co2_decrypt_buf s.key frame) 0 := by
    simp only [co2_read_data, if_true]
  refine ⟨by rw [ht]; rfl, by rw [ht]; rfl, by rw [ht]; rfl, ht, ?_⟩
  simp only [co2_read_data, if_true]; exact hv

/-- C6, witness: the frame `55 A4 EA B0 CC 9A 9C A8` read at program start has the
plaintext `99 12 34 DF 0D 00 00 00`: the tag `0x99` is none of the three
enumerators and the record carries it with the value `0x1234`. -/
theorem co2_read_data_tag_mapping_witness :
    [85, 164, 234, 176, 204, 154, 156, 168].length = 8 ∧
      (((co2_read_data 1 8 [85, 164, 234, 176, 204, 154, 156, 168] Lib.init).1.tag = CO2 ↔
          rd (co2_decrypt_buf Lib.init.key [85, 164, 234, 176, 204, 154, 156, 168]) 0 = 0x50) ∧
        ((co2_read_data 1 8 [85, 164, 234, 176, 204, 154, 156, 168] Lib.init).1.tag = TEMP ↔
          rd (co2_decrypt_buf Lib.init.key [85, 164, 234, 176, 204, 154, 156, 168]) 0 = 0x42) ∧
        ((co2_read_data 1 8 [85, 164, 234, 176, 204, 154, 156, 168] Lib.init).1.tag = HUMIDITY ↔
          rd (co2_decrypt_buf Lib.init.key [85, 164, 234, 176, 204, 154, 156, 168]) 0 = 0x44) ∧
        (co2_read_data 1 8 [85, 164, 234, 176, 204, 154, 156, 168] Lib.init).1.tag =
          rd (co2_decrypt_buf Lib.init.key [85, 164, 234, 176, 204, 154, 156, 168]) 0 ∧
        (co2_read_data 1 8 [85, 164, 234, 176, 204, 154, 156, 168] Lib.init).1.value =
          ((rd (co2_decrypt_buf Lib.init.key [85, 164, 234, 176, 204, 154, 156, 168]) 1 <<< 8) |||
            rd (co2_decrypt_buf Lib.init.key [85, 164, 234, 176, 204, 154, 156, 168]) 2)) ∧
      (co2_read_data 1 8 [85, 164, 234, 176, 204, 154, 156, 168] Lib.init).1 =
        ⟨0x99, 0x1234, 0xDF, true⟩ :=
  ⟨by decide, co2_read_data_tag_mapping 1 [85, 164, 234, 176, 204, 154, 156, 168] Lib.init
    (by decide), by decide⟩

/-! ## C7: the valid flag and the tag byte -/

/-- C7, counterexample: with the all-zero session key, the frames
`F0 A4 A2 B6 51 9A 9C 88` and `F0 A4 32 B6 51 9A 9C 88` have the plaintexts
`50 03 E8 3B 0D 00 00 00` and `42 03 E8 3B 0D 00 00 00`, which differ only in the
tag byte; the first record is valid, the second is not, because the checksum
`p[0] + p[1] + p[2]` covers the tag. -/
theorem co2_read_data_valid_depends_on_tag :
    co2_decrypt_buf Lib.init.key [240, 164, 162, 182, 81, 154, 156, 136] =
      [0x50, 0x03, 0xE8, 0x3B, 0x0d, 0, 0, 0] ∧
    co2_decrypt_buf Lib.init.key [240, 164, 50, 182, 81, 154, 156, 136] =
      [0x42, 0x03, 0xE8, 0x3B, 0x0d, 0, 0, 0] ∧
    (co2_read_data 1 8 [240, 164, 162, 182, 81, 154, 156, 136] Lib.init).1.valid = true ∧
    (co2_read_data 1 8 [240, 164, 50, 182, 81, 154, 156, 136] Lib.init).1.valid = false := by
  decide

/-- C7, amended: the valid flag is computed by one rule whatever the tag is, and
that rule reads the tag byte only through the checksum: two plaintexts that agree
on bytes 1, 2 and 4 and whose checksum bytes differ as their tag bytes do
(`q[3] + p[0] = p[3] + q[0]` modulo 256) give records with the same valid flag. -/
theorem co2_read_data_valid_same_rule (device : co2_device) (s : Lib) (f g : List Nat)
    (hf : f.length = 8) (hg : g.length = 8)
    (h1 : rd (co2_decrypt_buf s.key f) 1 = rd (co2_decrypt_buf s.key g) 1)
    (h2 : rd (co2_decrypt_buf s.key f) 2 = rd (co2_decrypt_buf s.key g) 2)
    (h4 : rd (co2_decrypt_buf s.key f) 4 = rd (co2_decrypt_buf s.key g) 4)
    (h03 : (rd (co2_decrypt_buf s.key g) 3 + rd (co2_decrypt_buf s.key f) 0) % 256 =
      (rd (co2_decrypt_buf s.key f) 3 + rd (co2_decrypt_buf s.key g) 0) % 256) :
    (co2_read_data device 8 f s).1.valid = (co2_read_data device 8 g s).1.valid := by
  have hp := co2_decrypt_buf_isBuf8 s.key f hf
  have hq := co2_decrypt_buf_isBuf8 s.key g hg
  have p0 := rd_lt_of_isBuf8 hp 0
  have p3 := rd_lt_of_isBuf8 hp 3
  have q0 := rd_lt_of_isBuf8 hq 0
  have q3 := rd_lt_of_isBuf8 hq 3
  rw [Bool.eq_iff_iff, read_valid_eq, read_valid_eq, ← h1, ← h2, ← h4]
  simp only [Bool.and_eq_true, beq_iff_eq]
  constructor
  · rintro ⟨ha, hb⟩; exact ⟨ha, by omega⟩
  · rintro ⟨ha, hb⟩; exact ⟨ha, by omega⟩

/-- C7, witness: the plaintexts `50 03 E8 3B 0D ..` and `42 03 E8 2D 0D ..` (tag and
checksum both lowered by `0x0E`), from the frames `F0 A4 A2 B6 51 9A 9C 88` and
`F0 A4 32 B6 51 9A 9C 18` under the all-zero key. -/
theorem co2_read_data_valid_same_rule_witness :
    [240, 164, 162, 182, 81, 154, 156, 136].length = 8 ∧
    [240, 164, 50, 182, 81, 154, 156, 24].length = 8 ∧
    rd (co2_decrypt_buf Lib.init.key [240, 164, 162, 182, 81, 154, 156, 136]) 1 =
      rd (co2_decrypt_buf Lib.init.key [240, 164, 50, 182, 81, 154, 156, 24]) 1 ∧
    rd (co2_decrypt_buf Lib.init.key [240, 164, 162, 182, 81, 154, 156, 136]) 2 =
      rd (co2_decrypt_buf Lib.init.key [240, 164, 50, 182, 81, 154, 156, 24]) 2 ∧
    rd (co2_decrypt_buf Lib.init.key [240, 164, 162, 182, 81, 154, 156, 136]) 4 =
      rd (co2_decrypt_buf Lib.init.key [240, 164, 50, 182, 81, 154, 156, 24]) 4 ∧
    (rd (co2_decrypt_buf Lib.init.key [240, 164, 50, 182, 81, 154, 156, 24]) 3 +
        rd (co2_decrypt_buf Lib.init.key [240, 164, 162, 182, 81, 154, 156, 136]) 0) % 256 =
      (rd (co2_decrypt_buf Lib.init.key [240, 164, 162, 182, 81, 154, 156, 136]) 3 +
        rd (co2_decrypt_buf Lib.init.key [240, 164, 50, 182, 81, 154, 156, 24]) 0) % 256 ∧
    (co2_read_data 1 8 [240, 164, 162, 182, 81, 154, 156, 136] Lib.init).1.valid =
      (co2_read_data 1 8 [240, 164, 50, 182, 81, 154, 156, 24] Lib.init).1.valid :=
  ⟨by decide, by decide, by decide, by decide, by decide, by decide,
    co2_read_data_valid_same_rule 1 Lib.init [240, 164, 162, 182, 81, 154, 156, 136]
      [240, 164, 50, 182, 81, 154, 156, 24] (by decide) (by decide) (by decide) (by decide)
      (by decide) (by decide)⟩

/-! ## The session invariant -/

theorem co2_gen_usb_enc_key_length (now : Tm) (k : List Nat) :
    (co2_gen_usb_enc_key now k).length = k.length := by
  simp only [co2_gen_usb_enc_key, List.length_set]

theorem memcpy_report (key : List Nat) (h : key.length = 8) :
    memcpy (List.replicate 9 0) 1 key 8 = 0 :: key := by
  obtain ⟨a0, a1, a2, a3, a4, a5, a6, a7, rfl⟩ := length8_cases h
  rfl

theorem lastSentKey_append_send (calls : List HidCall) (device : co2_device) (data : List Nat)
    (n : Nat) :
    lastSentKey (calls ++ [HidCall.hid_send_feature_report device data n]) = some (data.drop 1) := by
  simp [lastSentKey, List.foldl_append]

theorem lastSentKey_append_open_path (calls : List HidCall) (path : String) :
    lastSentKey (calls ++ [HidCall.hid_open_path path]) = lastSentKey calls := by
  simp [lastSentKey, List.foldl_append]

theorem lastSentKey_append_open (calls : List HidCall) (v p : Nat) :
    lastSentKey (calls ++ [HidCall.hid_open v p]) = lastSentKey calls := by
  simp [lastSentKey, List.foldl_append]

theorem lastSentKey_append_read (calls : List HidCall) (device : co2_device) (n : Nat) :
    lastSentKey (calls ++ [HidCall.hid_read device n]) = lastSentKey calls := by
  simp [lastSentKey, List.foldl_append]

theorem lastSentKey_append_close (calls : List HidCall) (device : co2_device) :
    lastSentKey (calls ++ [HidCall.hid_close device]) = lastSentKey calls := by
  simp [lastSentKey, List.foldl_append]

theorem send_init_synced (device : co2_device) (now : Tm) (sent : Int) (s : Lib)
    (h : s.key.length = 8) : (co2_send_init_packet device now sent s).2.Synced := by
  have hl : (co2_gen_usb_enc_key now s.key).length = 8 := by
    rw [co2_gen_usb_enc_key_length, h]
  refine ⟨hl, ?_⟩
  simp only [co2_send_init_packet, memcpy_report _ hl, lastSentKey_append_send, List.drop_one,
    List.tail_cons]

theorem synced_open_path {s : Lib} (h : s.Synced) (path : String) :
    Lib.Synced ⟨s.key, s.calls ++ [HidCall.hid_open_path path]⟩ :=
  ⟨h.1, by rw [lastSentKey_append_open_path]; exact h.2⟩

theorem synced_open {s : Lib} (h : s.Synced) (v p : Nat) :
    Lib.Synced ⟨s.key, s.calls ++ [HidCall.hid_open v p]⟩ :=
  ⟨h.1, by rw [lastSentKey_append_open]; exact h.2⟩

theorem synced_close {s : Lib} (h : s.Synced) (device : co2_device) :
    Lib.Synced ⟨s.key, s.calls ++ [HidCall.hid_close device]⟩ :=
  ⟨h.1, by rw [lastSentKey_append_close]; exact h.2⟩

theorem synced_read {s : Lib} (h : s.Synced) (device : co2_device) (n : Nat) :
    Lib.Synced ⟨s.key, s.calls ++ [HidCall.hid_read device n]⟩ :=
  ⟨h.1, by rw [lastSentKey_append_read]; exact h.2⟩

/-- The two branches of `co2_open_device_path` after a successful `hid_open_path`. -/
theorem open_device_path_some (path : String) (dev : co2_device) (now : Tm) (sent : Int)
    (s : Lib) :
    co2_open_device_path path (some dev) now sent s =
      if sent = 9 then
        (some dev,
          (co2_send_init_packet dev now sent ⟨s.key, s.calls ++ [HidCall.hid_open_path path]⟩).2)
      else
        (none,
          co2_close dev
            (co2_send_init_packet dev now sent
              ⟨s.key, s.calls ++ [HidCall.hid_open_path path]⟩).2) := by
  by_cases h9 : sent = 9 <;> simp [co2_open_device_path, co2_send_init_packet, co2_close, h9]

/-- The two branches of `co2_open_first_device` after a successful `hid_open`. -/
theorem open_first_device_some (dev : co2_device) (now : Tm) (sent : Int) (s : Lib) :
    co2_open_first_device (some dev) now sent s =
      if sent = 9 then
        (some dev,
          (co2_send_init_packet dev now sent
            ⟨s.key, s.calls ++ [HidCall.hid_open HOLTEK_CO2_VID HOLTEK_CO2_PID]⟩).2)
      else
        (none,
          co2_close dev
            (co2_send_init_packet dev now sent
              ⟨s.key, s.calls ++ [HidCall.hid_open HOLTEK_CO2_VID HOLTEK_CO2_PID]⟩).2) := by
  by_cases h9 : sent = 9 <;> simp [co2_open_first_device, co2_send_init_packet, co2_close, h9]

theorem step_synced (s : Lib) (op : Op) (h : s.Synced) : (s.step op).Synced := by
  cases op with
  | send_init_packet device now sent => exact send_init_synced device now sent s h.1
  | open_device_path path opened now sent =>
    cases opened with
    | none => exact synced_open_path h path
    | some dev =>
      have h' := send_init_synced dev now sent ⟨s.key, s.calls ++ [HidCall.hid_open_path path]⟩ h.1
      simp only [Lib.step, open_device_path_some]
      split
      · exact h'
      · exact synced_close h' dev
  | open_first_device opened now sent =>
    cases opened with
    | none => exact synced_open h _ _
    | some dev =>
      have h' := send_init_synced dev now sent
        ⟨s.key, s.calls ++ [HidCall.hid_open HOLTEK_CO2_VID HOLTEK_CO2_PID]⟩ h.1
      simp only [Lib.step, open_first_device_some]
      split
      · exact h'
      · exact synced_close h' dev
  | raw_open_device_path path opened => exact synced_open_path h path
  | raw_open_first_device opened => exact synced_open h _ _
  | close device => exact synced_close h device
  | read_data device res data =>
    simp only [Lib.step, co2_read_data]
    split <;> exact synced_read h device 8
  | raw_read_decode_data device res data => exact synced_read h device 8
  | raw_read_data device res data => exact synced_read h device 8

theorem run_synced (ops : List Op) : ∀ (s : Lib), s.Synced → (s.run ops).Synced := by
  induction ops with
  | nil => intro s h; exact h
  | cons op ops ih => intro s h; exact ih (s.step op) (step_synced s op h)


/-! ## C8: the init packet and the session key -/

/-- C8: `co2_send_init_packet` hands `hid_send_feature_report` a 9-byte report whose
byte 0 is `0x00` and whose bytes 1..8 are the freshly generated key, stores that
key in the static `key`, and returns what the transport answers; and after any
further sequence of library calls the key last sent to the device is the one
`co2_raw_read_decode_data` and `co2_read_data` decrypt with. -/
theorem co2_send_init_packet_session (device : co2_device) (now : Tm) (sent : Int) (s : Lib)
    (h : s.key.length = 8) :
    (co2_send_init_packet device now sent s).2.calls =
      s.calls ++ [HidCall.hid_send_feature_report device (0 :: co2_gen_usb_enc_key now s.key) 9] ∧
    (0 :: co2_gen_usb_enc_key now s.key).length = 9 ∧
    (co2_send_init_packet device now sent s).2.key = co2_gen_usb_enc_key now s.key ∧
    (co2_send_init_packet device now sent s).1 = sent ∧
    ∀ (ops : List Op) (dev : co2_device) (res : Int) (data : List Nat),
      ∃ k, lastSentKey (((co2_send_init_packet device now sent s).2.run ops).calls) = some k ∧
        (co2_raw_read_decode_data dev res data
            ((co2_send_init_packet device now sent s).2.run ops)).1 =
          (res, co2_decrypt_buf k data) ∧
        (co2_read_data dev res data ((co2_send_init_packet device now sent s).2.run ops)).1 =
          (co2_read_data dev res data ⟨k, []⟩).1 := by
  have hl : (co2_gen_usb_enc_key now s.key).length = 8 := by
    rw [co2_gen_usb_enc_key_length, h]
  refine ⟨?_, by simp [hl], rfl, rfl, ?_⟩
  · simp only [co2_send_init_packet, memcpy_report _ hl]
  · intro ops dev res data
    refine ⟨_, (run_synced ops _ (send_init_synced device now sent s h)).2, rfl, ?_⟩
    simp only [co2_read_data]
    split <;> rfl

/-- C8, witness: the init packet sent at program start, at 22:15:37 on 17 October
2026, to a transport that reports 9 bytes written. -/
theorem co2_send_init_packet_session_witness :
    Lib.init.key.length = 8 ∧
    ((co2_send_init_packet 1 ⟨37, 15, 22, 17, 9, 126⟩ 9 Lib.init).2.calls =
      Lib.init.calls ++ [HidCall.hid_send_feature_report 1
        (0 :: co2_gen_usb_enc_key ⟨37, 15, 22, 17, 9, 126⟩ Lib.init.key) 9] ∧
    (0 :: co2_gen_usb_enc_key ⟨37, 15, 22, 17, 9, 126⟩ Lib.init.key).length = 9 ∧
    (co2_send_init_packet 1 ⟨37, 15, 22, 17, 9, 126⟩ 9 Lib.init).2.key =
      co2_gen_usb_enc_key ⟨37, 15, 22, 17, 9, 126⟩ Lib.init.key ∧
    (co2_send_init_packet 1 ⟨37, 15, 22, 17, 9, 126⟩ 9 Lib.init).1 = 9 ∧
    ∀ (ops : List Op) (dev : co2_device) (res : Int) (data : List Nat),
      ∃ k, lastSentKey (((co2_send_init_packet 1 ⟨37, 15, 22, 17, 9, 126⟩ 9 Lib.init).2.run
          ops).calls) = some k ∧
        (co2_raw_read_decode_data dev res data
            ((co2_send_init_packet 1 ⟨37, 15, 22, 17, 9, 126⟩ 9 Lib.init).2.run ops)).1 =
          (res, co2_decrypt_buf k data) ∧
        (co2_read_data dev res data
            ((co2_send_init_packet 1 ⟨37, 15, 22, 17, 9, 126⟩ 9 Lib.init).2.run ops)).1 =
          (co2_read_data dev res data ⟨k, []⟩).1) :=
  ⟨by decide, co2_send_init_packet_session 1 ⟨37, 15, 22, 17, 9, 126⟩ 9 Lib.init (by decide)⟩

/-! ## C9: session setup -/

/-- C9: in `co2_open_device_path` and `co2_open_first_device`, when the transport
open succeeds the handle is returned if and only if the init packet reports
exactly 9 bytes written; for every other result the calls made are the open, the
feature report and one `hid_close` of the handle, and `NULL` is returned; when the
open fails, `NULL` is returned and the open is the only call made. -/
theorem co2_open_session_setup (path : String) (dev : co2_device) (now : Tm) (sent : Int)
    (s : Lib) :
    (((co2_open_device_path path (some dev) now sent s).1 = some dev ↔ sent = 9) ∧
      (co2_open_device_path path (some dev) now sent s).1 = (if sent = 9 then some dev else none) ∧
      (co2_open_device_path path (some dev) now sent s).2.calls =
        s.calls ++
          [HidCall.hid_open_path path,
            HidCall.hid_send_feature_report dev
              (memcpy (List.replicate 9 0) 1 (co2_gen_usb_enc_key now s.key) 8) 9] ++
          (if sent = 9 then [] else [HidCall.hid_close dev]) ∧
      co2_open_device_path path none now sent s =
        (none, ⟨s.key, s.calls ++ [HidCall.hid_open_path path]⟩)) ∧
    (((co2_open_first_device (some dev) now sent s).1 = some dev ↔ sent = 9) ∧
      (co2_open_first_device (some dev) now sent s).1 = (if sent = 9 then some dev else none) ∧
      (co2_open_first_device (some dev) now sent s).2.calls =
        s.calls ++
          [HidCall.hid_open HOLTEK_CO2_VID HOLTEK_CO2_PID,
            HidCall.hid_send_feature_report dev
              (memcpy (List.replicate 9 0) 1 (co2_gen_usb_enc_key now s.key) 8) 9] ++
          (if sent = 9 then [] else [HidCall.hid_close dev]) ∧
      co2_open_first_device none now sent s =
        (none, ⟨s.key, s.calls ++ [HidCall.hid_open HOLTEK_CO2_VID HOLTEK_CO2_PID]⟩)) := by
  rw [open_device_path_some, open_first_device_some]
  by_cases h9 : sent = 9
  · simp [h9, co2_send_init_packet, co2_open_device_path, co2_open_first_device]
  · simp [h9, co2_send_init_packet, co2_close, co2_open_device_path, co2_open_first_device]

/-! ## C10: the conversion test vectors -/

/-- C10, counterexample: read over the rationals, `co2_get_celsius_temp(4377)` is
0.05 away from 0.4625 and `co2_get_fahrenheit_temp(4377)` is 0.09 away from
32.8325; neither is within 0.001. -/
theorem conversion_vectors_off :
    |co2_get_celsius_temp 4377 - 0.4625| = 0.05 ∧
    |co2_get_fahrenheit_temp 4377 - 32.8325| = 0.09 ∧
    ¬ |co2_get_celsius_temp 4377 - 0.4625| < 0.001 ∧
    ¬ |co2_get_fahrenheit_temp 4377 - 32.8325| < 0.001 := by
  have hc : co2_get_celsius_temp 4377 - 0.4625 = -0.05 := by
    norm_num [co2_get_celsius_temp]
  have hf : co2_get_fahrenheit_temp 4377 - 32.8325 = -0.09 := by
    norm_num [co2_get_fahrenheit_temp]
  rw [hc, hf]
  norm_num [abs_of_nonneg]

/-- C10, amended: `co2_get_celsius_temp(4377)` is 0.4125 and
`co2_get_fahrenheit_temp(4377)` is 32.7425, exactly over the rationals and so
within 0.001. -/
theorem conversion_vectors :
    co2_get_celsius_temp 4377 = 0.4125 ∧ co2_get_fahrenheit_temp 4377 = 32.7425 ∧
    |co2_get_celsius_temp 4377 - 0.4125| < 0.001 ∧
    |co2_get_fahrenheit_temp 4377 - 32.7425| < 0.001 := by
  have hc : co2_get_celsius_temp 4377 = 0.4125 := by norm_num [co2_get_celsius_temp]
  have hf : co2_get_fahrenheit_temp 4377 = 32.7425 := by norm_num [co2_get_fahrenheit_temp]
  rw [hc, hf]
  norm_num

/-! ## C11: the conversion formulas -/

/-- C11: read over the rationals, for every raw value `v`,
`co2_get_celsius_temp(v) = v/16 - 273.15`,
`co2_get_fahrenheit_temp(v) = co2_get_celsius_temp(v)*1.8 + 32` and
`co2_get_relative_humidity(v) = v/100`, so that the humidity of 4500 is 45; the
three functions take the raw value alone and no measurement kind. -/
theorem conversion_formulas (v : Nat) :
    co2_get_celsius_temp v = (v : ℚ) / 16 - 273.15 ∧
    co2_get_fahrenheit_temp v = co2_get_celsius_temp v * 1.8 + 32 ∧
    co2_get_relative_humidity v = (v : ℚ) / 100 ∧
    co2_get_relative_humidity 4500 = 45 := by
  refine ⟨?_, ?_, ?_, ?_⟩
  · norm_num [co2_get_celsius_temp]
  · rfl
  · norm_num [co2_get_relative_humidity]
  · norm_num [co2_get_relative_humidity]

/-! ## The rotate phase as arithmetic -/

/-- The third loop on an array `[x0, .., x7]`. -/
theorem phase3_list (x0 x1 x2 x3 x4 x5 x6 x7 : Nat) :
    phase3 [x0, x1, x2, x3, x4, x5, x6, x7] =
      [((x0 >>> 3 ||| x7 <<< 5) &&& 0xff) % 256, ((x1 >>> 3 ||| x0 <<< 5) &&& 0xff) % 256,
        ((x2 >>> 3 ||| x1 <<< 5) &&& 0xff) % 256, ((x3 >>> 3 ||| x2 <<< 5) &&& 0xff) % 256,
        ((x4 >>> 3 ||| x3 <<< 5) &&& 0xff) % 256, ((x5 >>> 3 ||| x4 <<< 5) &&& 0xff) % 256,
        ((x6 >>> 3 ||| x5 <<< 5) &&& 0xff) % 256, ((x7 >>> 3 ||| x6 <<< 5) &&& 0xff) % 256] := rfl

/-- One byte of the third loop, as arithmetic. -/
theorem rot_byte (a b : Nat) (ha : a < 256) :
    ((a >>> 3 ||| b <<< 5) &&& 0xff) % 256 = (32 * b + a / 8) % 256 := by
  have h5 : (32 : Nat) = 2 ^ 5 := by norm_num
  have hor : a >>> 3 ||| b <<< 5 = 32 * b + a / 8 := by
    rw [Nat.shiftRight_eq_div_pow, Nat.shiftLeft_eq, Nat.lor_comm, Nat.mul_comm b, h5,
      ← Nat.mul_add_lt_is_or (by norm_num; omega) b]
  rw [hor, and_ff, Nat.mod_mod]

theorem wordBE_list (x0 x1 x2 x3 x4 x5 x6 x7 : Nat) :
    wordBE [x0, x1, x2, x3, x4, x5, x6, x7] =
      ((((((x0 * 256 + x1) * 256 + x2) * 256 + x3) * 256 + x4) * 256 + x5) * 256 + x6) * 256
        + x7 := by
  simp [wordBE, rd, List.range, List.range.loop]

theorem bytesBE_list (w : Nat) :
    bytesBE w =
      [w / 256 / 256 / 256 / 256 / 256 / 256 / 256 % 256, w / 256 / 256 / 256 / 256 / 256 / 256 % 256,
        w / 256 / 256 / 256 / 256 / 256 % 256, w / 256 / 256 / 256 / 256 % 256,
        w / 256 / 256 / 256 % 256, w / 256 / 256 % 256, w / 256 % 256, w % 256] := by
  simp [bytesBE, List.range, List.range.loop, Nat.shiftRight_eq_div_pow, Nat.div_div_eq_div_mul]

theorem wordBE_lt (x : List Nat) (hx : IsBuf8 x) : wordBE x < 18446744073709551616 := by
  obtain ⟨x0, x1, x2, x3, x4, x5, x6, x7, rfl, h0, h1, h2, h3, h4, h5, h6, h7⟩ := hx.cases
  rw [wordBE_list]; omega

theorem bytesBE_isBuf8 (w : Nat) : IsBuf8 (bytesBE w) := by
  rw [bytesBE_list]
  refine ⟨rfl, ?_⟩
  intro x hx
  simp only [List.mem_cons, List.mem_singleton, List.not_mem_nil, or_false] at hx
  rcases hx with h | h | h | h | h | h | h | h <;> rw [h] <;> exact Nat.mod_lt _ (by norm_num)

theorem bytesBE_wordBE (x : List Nat) (hx : IsBuf8 x) : bytesBE (wordBE x) = x := by
  obtain ⟨x0, x1, x2, x3, x4, x5, x6, x7, rfl, h0, h1, h2, h3, h4, h5, h6, h7⟩ := hx.cases
  rw [bytesBE_list, wordBE_list]
  refine congrArg₂ _ ?_ (congrArg₂ _ ?_ (congrArg₂ _ ?_ (congrArg₂ _ ?_ (congrArg₂ _ ?_
    (congrArg₂ _ ?_ (congrArg₂ _ ?_ (congrArg₂ _ ?_ rfl))))))) <;> omega

theorem wordBE_bytesBE (w : Nat) (hw : w < 18446744073709551616) : wordBE (bytesBE w) = w := by
  rw [bytesBE_list, wordBE_list]
  omega

theorem rotr64_three (w : Nat) (hw : w < 18446744073709551616) :
    rotr64 w 3 = 2305843009213693952 * (w % 8) + w / 8 := by
  have h61 : (2305843009213693952 : Nat) = 2 ^ 61 := by norm_num
  have hor : w >>> 3 ||| w <<< (64 - 3) = 2305843009213693952 * w + w / 8 := by
    rw [Nat.shiftRight_eq_div_pow, Nat.shiftLeft_eq, Nat.lor_comm, Nat.mul_comm w, h61,
      ← Nat.mul_add_lt_is_or (by norm_num; omega) w]
  rw [rotr64, hor]
  norm_num
  omega

theorem rotl64_three (v : Nat) (hv : v < 18446744073709551616) :
    rotl64 v 3 = 8 * (v % 2305843009213693952) + v / 2305843009213693952 := by
  have h3 : (8 : Nat) = 2 ^ 3 := by norm_num
  have hor : v <<< 3 ||| v >>> (64 - 3) = 8 * v + v / 2305843009213693952 := by
    rw [Nat.shiftRight_eq_div_pow, Nat.shiftLeft_eq, Nat.mul_comm v, h3,
      ← Nat.mul_add_lt_is_or (by norm_num; omega) v]
  rw [rotl64, hor]
  norm_num
  omega

theorem rotr64_lt (w : Nat) : rotr64 w 3 < 18446744073709551616 := by
  unfold rotr64; exact Nat.mod_lt _ (by norm_num)

theorem rotl64_lt (w : Nat) : rotl64 w 3 < 18446744073709551616 := by
  unfold rotl64; exact Nat.mod_lt _ (by norm_num)

theorem rotl64_rotr64 (w : Nat) (hw : w < 18446744073709551616) : rotl64 (rotr64 w 3) 3 = w := by
  rw [rotl64_three _ (rotr64_lt w), rotr64_three w hw]
  omega

theorem rotr64_rotl64 (w : Nat) (hw : w < 18446744073709551616) : rotr64 (rotl64 w 3) 3 = w := by
  rw [rotr64_three _ (rotl64_lt w), rotl64_three w hw]
  omega

/-- The third loop computes the bytes of the rotated word. -/
theorem phase3_eq_rotr64 (x : List Nat) (hx : IsBuf8 x) :
    phase3 x = bytesBE (rotr64 (wordBE x) 3) := by
  have hw := wordBE_lt x hx
  obtain ⟨x0, x1, x2, x3, x4, x5, x6, x7, rfl, h0, h1, h2, h3, h4, h5, h6, h7⟩ := hx.cases
  have e0 : (32 * x7 + x0 / 8) % 256 = 32 * (x7 % 8) + x0 / 8 := by omega
  have e1 : (32 * x0 + x1 / 8) % 256 = 32 * (x0 % 8) + x1 / 8 := by omega
  have e2 : (32 * x1 + x2 / 8) % 256 = 32 * (x1 % 8) + x2 / 8 := by omega
  have e3 : (32 * x2 + x3 / 8) % 256 = 32 * (x2 % 8) + x3 / 8 := by omega
  have e4 : (32 * x3 + x4 / 8) % 256 = 32 * (x3 % 8) + x4 / 8 := by omega
  have e5 : (32 * x4 + x5 / 8) % 256 = 32 * (x4 % 8) + x5 / 8 := by omega
  have e6 : (32 * x5 + x6 / 8) % 256 = 32 * (x5 % 8) + x6 / 8 := by omega
  have e7 : (32 * x6 + x7 / 8) % 256 = 32 * (x6 % 8) + x7 / 8 := by omega
  have hy : IsBuf8 [32 * (x7 % 8) + x0 / 8, 32 * (x0 % 8) + x1 / 8, 32 * (x1 % 8) + x2 / 8,
      32 * (x2 % 8) + x3 / 8, 32 * (x3 % 8) + x4 / 8, 32 * (x4 % 8) + x5 / 8,
      32 * (x5 % 8) + x6 / 8, 32 * (x6 % 8) + x7 / 8] := by
    refine ⟨rfl, ?_⟩
    intro y hy
    simp only [List.mem_cons, List.mem_singleton, List.not_mem_nil, or_false] at hy
    omega
  have hword : rotr64 (wordBE [x0, x1, x2, x3, x4, x5, x6, x7]) 3 =
      wordBE [32 * (x7 % 8) + x0 / 8, 32 * (x0 % 8) + x1 / 8, 32 * (x1 % 8) + x2 / 8,
        32 * (x2 % 8) + x3 / 8, 32 * (x3 % 8) + x4 / 8, 32 * (x4 % 8) + x5 / 8,
        32 * (x5 % 8) + x6 / 8, 32 * (x6 % 8) + x7 / 8] := by
    rw [rotr64_three _ hw, wordBE_list, wordBE_list]
    omega
  rw [hword, bytesBE_wordBE _ hy, phase3_list, rot_byte _ _ h0, rot_byte _ _ h1,
    rot_byte _ _ h2, rot_byte _ _ h3, rot_byte _ _ h4, rot_byte _ _ h5, rot_byte _ _ h6,
    rot_byte _ _ h7, e0, e1, e2, e3, e4, e5, e6, e7]

theorem prevIdx_eq (i : Nat) : prevIdx i = (i + 7) % 8 := by
  unfold prevIdx; omega

/-- Byte `i` of the third loop: its high 3 bits are the low 3 bits of byte
`(i-1+8)%8`, its low 5 bits are the high 5 bits of byte `i`. -/
theorem phase3_bits (x : List Nat) (hx : IsBuf8 x) (i : Nat) (hi : i < 8) :
    rd (phase3 x) i = 32 * (rd x (prevIdx i) % 8) + rd x i / 8 := by
  obtain ⟨x0, x1, x2, x3, x4, x5, x6, x7, rfl, h0, h1, h2, h3, h4, h5, h6, h7⟩ := hx.cases
  rw [phase3_list, rot_byte _ _ h0, rot_byte _ _ h1, rot_byte _ _ h2, rot_byte _ _ h3,
    rot_byte _ _ h4, rot_byte _ _ h5, rot_byte _ _ h6, rot_byte _ _ h7, prevIdx_eq]
  interval_cases i <;> simp only [rd, List.getD_cons_zero, List.getD_cons_succ, Nat.reduceAdd,
    Nat.reduceMod] <;> omega

/-! ## C12: the rotate phase is a 64-bit rotation -/

/-- C12: for every 8-byte array `x`, read as one 64-bit big-endian word (`x[0]` most
significant), the phase-3 array of `co2_decrypt_buf` is the big-endian byte
representation of that word rotated right by 3 bits; the top 3 bits of byte 0
are the low 3 bits of byte 7. -/
theorem phase3_rotate_right_three (x : List Nat) (hx : IsBuf8 x) :
    phase3 x = bytesBE (rotr64 (wordBE x) 3) ∧ rd (phase3 x) 0 / 32 = rd x 7 % 8 := by
  refine ⟨phase3_eq_rotr64 x hx, ?_⟩
  have h := phase3_bits x hx 0 (by norm_num)
  have h7 : prevIdx 0 = 7 := by decide
  have hlt := rd_lt_of_isBuf8 hx 0
  rw [h7] at h
  omega

/-- C12, witness: the array `01 02 03 04 05 06 07 88`, whose rotated word is
`00 20 40 60 80 A0 C0 F1`. -/
theorem phase3_rotate_right_three_witness :
    IsBuf8 [1, 2, 3, 4, 5, 6, 7, 0x88] ∧
      (phase3 [1, 2, 3, 4, 5, 6, 7, 0x88] = bytesBE (rotr64 (wordBE [1, 2, 3, 4, 5, 6, 7, 0x88]) 3) ∧
        rd (phase3 [1, 2, 3, 4, 5, 6, 7, 0x88]) 0 / 32 = rd [1, 2, 3, 4, 5, 6, 7, 0x88] 7 % 8) ∧
      phase3 [1, 2, 3, 4, 5, 6, 7, 0x88] = [0x00, 0x20, 0x40, 0x60, 0x80, 0xA0, 0xC0, 0xF1] :=
  ⟨by decide, phase3_rotate_right_three [1, 2, 3, 4, 5, 6, 7, 0x88] (by decide), by decide⟩

/-! ## C13: which bits of a rotated byte are borrowed -/

/-- C13, counterexample: the arrays `00 00 00 ..` and `00 00 08 00 ..` differ only in
byte 2, byte 1 is the same in both, and the low 5 bits of the rotated byte 2 are
0 in the first and 1 in the second. -/
theorem phase3_low_bits_follow_own_byte :
    rd [0, 0, 0, 0, 0, 0, 0, 0] (prevIdx 2) = rd [0, 0, 8, 0, 0, 0, 0, 0] (prevIdx 2) ∧
    rd (phase3 [0, 0, 0, 0, 0, 0, 0, 0]) 2 % 32 = 0 ∧
    rd (phase3 [0, 0, 8, 0, 0, 0, 0, 0]) 2 % 32 = 1 := by
  decide

/-- C13, amended: in the rotate phase, for every position `i` and every 8-byte
arrays `x` and `y` with the same byte `(i-1+8) mod 8`, the high 3 bits of the
rotated byte `i` are the same: they are the low 3 bits of `x[(i-1+8) mod 8]`,
whatever `x[i]` is; the low 5 bits of the rotated byte are the high 5 bits of
`x[i]`. -/
theorem phase3_high_bits_borrowed (x y : List Nat) (hx : IsBuf8 x) (hy : IsBuf8 y) (i : Nat)
    (hi : i < 8) (h : rd x (prevIdx i) = rd y (prevIdx i)) :
    rd (phase3 x) i / 32 = rd (phase3 y) i / 32 ∧
    rd (phase3 x) i / 32 = rd x (prevIdx i) % 8 ∧
    rd (phase3 x) i % 32 = rd x i / 8 := by
  have ex := phase3_bits x hx i hi
  have ey := phase3_bits y hy i hi
  have hxi := rd_lt_of_isBuf8 hx i
  have hyi := rd_lt_of_isBuf8 hy i
  rw [h] at ex
  omega

/-- C13, witness: position 2 of `11 22 33 44 55 66 77 88` and of the same array
with byte 2 replaced by `FF`. -/
theorem phase3_high_bits_borrowed_witness :
    IsBuf8 [0x11, 0x22, 0x33, 0x44, 0x55, 0x66, 0x77, 0x88] ∧
    IsBuf8 [0x11, 0x22, 0xFF, 0x44, 0x55, 0x66, 0x77, 0x88] ∧ 2 < 8 ∧
    rd [0x11, 0x22, 0x33, 0x44, 0x55, 0x66, 0x77, 0x88] (prevIdx 2) =
      rd [0x11, 0x22, 0xFF, 0x44, 0x55, 0x66, 0x77, 0x88] (prevIdx 2) ∧
    (rd (phase3 [0x11, 0x22, 0x33, 0x44, 0x55, 0x66, 0x77, 0x88]) 2 / 32 =
        rd (phase3 [0x11, 0x22, 0xFF, 0x44, 0x55, 0x66, 0x77, 0x88]) 2 / 32 ∧
      rd (phase3 [0x11, 0x22, 0x33, 0x44, 0x55, 0x66, 0x77, 0x88]) 2 / 32 =
        rd [0x11, 0x22, 0x33, 0x44, 0x55, 0x66, 0x77, 0x88] (prevIdx 2) % 8 ∧
      rd (phase3 [0x11, 0x22, 0x33, 0x44, 0x55, 0x66, 0x77, 0x88]) 2 % 32 =
        rd [0x11, 0x22, 0x33, 0x44, 0x55, 0x66, 0x77, 0x88] 2 / 8) :=
  ⟨by decide, by decide, by decide, by decide,
    phase3_high_bits_borrowed [0x11, 0x22, 0x33, 0x44, 0x55, 0x66, 0x77, 0x88]
      [0x11, 0x22, 0xFF, 0x44, 0x55, 0x66, 0x77, 0x88] (by decide) (by decide) 2 (by decide)
      (by decide)⟩

/-! ## The key schedule in closed form -/

/-- The function is its two passes in sequence. -/
theorem gen_key_passes (local_time : Tm) (usb_enc_key : List Nat) :
    co2_gen_usb_enc_key local_time usb_enc_key =
      gen_key_mix (gen_key_step1 local_time usb_enc_key).1
        (gen_key_step1 local_time usb_enc_key).2 := rfl

/-- The mixing pass on an array `[a0, .., a7]` of bytes with `time_sec = a7`. -/
theorem gen_key_mix_bytes (a0 a1 a2 a3 a4 a5 a6 t : Nat)
    (h2 : a2 < 256) (h3 : a3 < 256) (h4 : a4 < 256) (h5 : a5 < 256) (h6 : a6 < 256)
    (ht : t < 256) :
    gen_key_mix [a0, a1, a2, a3, a4, a5, a6, t] t =
      [t ^^^ a5 ^^^ a2, a2 ^^^ a6 ^^^ t, t ^^^ a5 ^^^ a2, a4 ^^^ (a6 ^^^ a3),
        a5 ^^^ (a4 ^^^ (a6 ^^^ a3)) ^^^ (t ^^^ a5 ^^^ a2), t,
        a5 ^^^ (a4 ^^^ (a6 ^^^ a3)) ^^^ (t ^^^ a5 ^^^ a2), a5] := by
  simp only [gen_key_mix, rd, List.set, List.getD_cons_zero, List.getD_cons_succ, xor_mod_256,
    Nat.mod_mod, Nat.mod_eq_of_lt h2, Nat.mod_eq_of_lt h3, Nat.mod_eq_of_lt h4,
    Nat.mod_eq_of_lt h5, Nat.mod_eq_of_lt h6, Nat.mod_eq_of_lt ht]
  refine congrArg₂ _ rfl (congrArg₂ _ rfl (congrArg₂ _ ?_ (congrArg₂ _ rfl (congrArg₂ _ rfl
    (congrArg₂ _ ?_ (congrArg₂ _ rfl (congrArg₂ _ ?_ rfl)))))))
  all_goals
    apply Nat.eq_of_testBit_eq
    intro i
    simp only [Nat.testBit_xor]
    cases a2.testBit i <;> cases a3.testBit i <;> cases a4.testBit i <;> cases a5.testBit i <;>
      cases a6.testBit i <;> cases t.testBit i <;> rfl

/-- The first pass on an 8-byte array: every cell is written. -/
theorem gen_key_step1_bytes (local_time : Tm) (a0 a1 a2 a3 a4 a5 a6 a7 : Nat) :
    gen_key_step1 local_time [a0, a1, a2, a3, a4, a5, a6, a7] =
      ([u8 (local_time.tm_mday + local_time.tm_sec + 66),
        u8 (((u16 ((u16 local_time.tm_year : Int) + 1900) >>> 8 : Nat) : Int) - 104),
        u8 (local_time.tm_hour + local_time.tm_min + 90),
        u8 (8 * local_time.tm_sec - 34),
        u8 (local_time.tm_min - 60),
        u8 (local_time.tm_year + 108),
        u8 (4 * (local_time.tm_sec + 51)),
        u8 (local_time.tm_mon + 1 + local_time.tm_sec - 95)],
       u8 (local_time.tm_mon + 1 + local_time.tm_sec - 95)) := by
  simp only [gen_key_step1, List.set, u8_time_sec]

/-- The generated key in closed form. -/
theorem gen_key_bytes (local_time : Tm) (usb_enc_key : List Nat) (h : usb_enc_key.length = 8) :
    co2_gen_usb_enc_key local_time usb_enc_key =
      [u8 (local_time.tm_mon + 1 + local_time.tm_sec - 95) ^^^ u8 (local_time.tm_year + 108) ^^^
          u8 (local_time.tm_hour + local_time.tm_min + 90),
        u8 (local_time.tm_hour + local_time.tm_min + 90) ^^^ u8 (4 * (local_time.tm_sec + 51)) ^^^
          u8 (local_time.tm_mon + 1 + local_time.tm_sec - 95),
        u8 (local_time.tm_mon + 1 + local_time.tm_sec - 95) ^^^ u8 (local_time.tm_year + 108) ^^^
          u8 (local_time.tm_hour + local_time.tm_min + 90),
        u8 (local_time.tm_min - 60) ^^^
          (u8 (4 * (local_time.tm_sec + 51)) ^^^ u8 (8 * local_time.tm_sec - 34)),
        u8 (local_time.tm_year + 108) ^^^
          (u8 (local_time.tm_min - 60) ^^^
            (u8 (4 * (local_time.tm_sec + 51)) ^^^ u8 (8 * local_time.tm_sec - 34))) ^^^
          (u8 (local_time.tm_mon + 1 + local_time.tm_sec - 95) ^^^ u8 (local_time.tm_year + 108) ^^^
            u8 (local_time.tm_hour + local_time.tm_min + 90)),
        u8 (local_time.tm_mon + 1 + local_time.tm_sec - 95),
        u8 (local_time.tm_year + 108) ^^^
          (u8 (local_time.tm_min - 60) ^^^
            (u8 (4 * (local_time.tm_sec + 51)) ^^^ u8 (8 * local_time.tm_sec - 34))) ^^^
          (u8 (local_time.tm_mon + 1 + local_time.tm_sec - 95) ^^^ u8 (local_time.tm_year + 108) ^^^
            u8 (local_time.tm_hour + local_time.tm_min + 90)),
        u8 (local_time.tm_year + 108)] := by
  obtain ⟨a0, a1, a2, a3, a4, a5, a6, a7, rfl⟩ := length8_cases h
  rw [gen_key_passes, gen_key_step1_bytes]
  exact gen_key_mix_bytes _ _ _ _ _ _ _ _ (u8_lt _) (u8_lt _) (u8_lt _) (u8_lt _) (u8_lt _)
    (u8_lt _)

theorem u8_congr {x y : Int} (h : x % 256 = y % 256) : u8 x = u8 y := by
  unfold u8; rw [h]

theorem gen_key_mix_ignores_b0_b1 (k : List Nat) (time_sec a b : Nat) (h : k.length = 8) :
    gen_key_mix ((k.set 0 a).set 1 b) time_sec = gen_key_mix k time_sec := by
  obtain ⟨a0, a1, a2, a3, a4, a5, a6, a7, rfl⟩ := length8_cases h
  rfl

/-! ## C14: the step-1 value of `b1` -/

/-- C14, counterexample: for the year 2026 (`tm_year = 126`) the first pass leaves
159 in `usb_enc_key[1]`, not 0; the value shifted right by 8 is 2026, which is
not below 256. -/
theorem gen_key_b1_not_zero :
    rd (gen_key_step1 ⟨37, 15, 22, 17, 9, 126⟩ zero8).1 1 = 159 ∧
    rd (gen_key_step1 ⟨37, 15, 22, 17, 9, 126⟩ zero8).1 1 ≠ 0 ∧
    u16 ((u16 (126 : Int) : Int) + 1900) = 2026 ∧ ¬ u16 ((u16 (126 : Int) : Int) + 1900) < 256 := by
  decide

/-- C14, amended: for every year-since-1900 from 100 to 199, `(tm_year + 1900) >> 8`
is 7 up to the year 2047 and 8 from 2048 on, so the step-1 value of `b1` is 159
for the years 2000..2047 and 160 for 2048..2099, and never 0. -/
theorem gen_key_b1_21st_century (local_time : Tm) (usb_enc_key : List Nat)
    (h : usb_enc_key.length = 8) (hlo : 100 ≤ local_time.tm_year)
    (hhi : local_time.tm_year ≤ 199) :
    u16 ((u16 local_time.tm_year : Int) + 1900) >>> 8 =
      (if local_time.tm_year ≤ 147 then 7 else 8) ∧
    rd (gen_key_step1 local_time usb_enc_key).1 1 =
      (if local_time.tm_year ≤ 147 then 159 else 160) ∧
    rd (gen_key_step1 local_time usb_enc_key).1 1 ≠ 0 := by
  obtain ⟨a0, a1, a2, a3, a4, a5, a6, a7, rfl⟩ := length8_cases h
  have e1 : (u16 local_time.tm_year : Int) = local_time.tm_year := by
    unfold u16; omega
  have e2 : (u16 ((u16 local_time.tm_year : Int) + 1900) : Int) = local_time.tm_year + 1900 := by
    rw [e1]; unfold u16; omega
  have h7 : u16 ((u16 local_time.tm_year : Int) + 1900) >>> 8 =
      (if local_time.tm_year ≤ 147 then 7 else 8) := by
    rw [Nat.shiftRight_eq_div_pow]
    split <;> omega
  rw [gen_key_step1_bytes]
  simp only [rd, List.getD_cons_succ, List.getD_cons_zero, h7]
  refine ⟨trivial, ?_, ?_⟩ <;> split <;> decide

/-- C14, witness: the year 2026. -/
theorem gen_key_b1_21st_century_witness :
    zero8.length = 8 ∧ (100 : Int) ≤ (⟨37, 15, 22, 17, 9, 126⟩ : Tm).tm_year ∧
    (⟨37, 15, 22, 17, 9, 126⟩ : Tm).tm_year ≤ 199 ∧
    (u16 ((u16 (⟨37, 15, 22, 17, 9, 126⟩ : Tm).tm_year : Int) + 1900) >>> 8 =
        (if (⟨37, 15, 22, 17, 9, 126⟩ : Tm).tm_year ≤ 147 then 7 else 8) ∧
      rd (gen_key_step1 ⟨37, 15, 22, 17, 9, 126⟩ zero8).1 1 =
        (if (⟨37, 15, 22, 17, 9, 126⟩ : Tm).tm_year ≤ 147 then 159 else 160) ∧
      rd (gen_key_step1 ⟨37, 15, 22, 17, 9, 126⟩ zero8).1 1 ≠ 0) :=
  ⟨by decide, by decide, by decide,
    gen_key_b1_21st_century ⟨37, 15, 22, 17, 9, 126⟩ zero8 (by decide) (by decide) (by decide)⟩

/-! ## C16: the key does not depend on the day of month -/

/-- C16: two local times that agree on year-since-1900 modulo 256, month, hour,
minute and second give identical keys, whatever their days of month and
whatever the arrays held before; and the mixing pass gives the same result
whatever cells 0 and 1 hold when it starts, these being overwritten before they
are read. -/
theorem co2_gen_usb_enc_key_day_independent (t1 t2 : Tm) (k1 k2 : List Nat)
    (h1 : k1.length = 8) (h2 : k2.length = 8)
    (hyear : t1.tm_year % 256 = t2.tm_year % 256) (hmon : t1.tm_mon = t2.tm_mon)
    (hhour : t1.tm_hour = t2.tm_hour) (hmin : t1.tm_min = t2.tm_min)
    (hsec : t1.tm_sec = t2.tm_sec) :
    co2_gen_usb_enc_key t1 k1 = co2_gen_usb_enc_key t2 k2 ∧
    ∀ (k : List Nat) (time_sec a b : Nat), k.length = 8 →
      gen_key_mix ((k.set 0 a).set 1 b) time_sec = gen_key_mix k time_sec := by
  refine ⟨?_, fun k ts a b hk => gen_key_mix_ignores_b0_b1 k ts a b hk⟩
  have hy : u8 (t1.tm_year + 108) = u8 (t2.tm_year + 108) := u8_congr (by omega)
  rw [gen_key_bytes t1 k1 h1, gen_key_bytes t2 k2 h2, hy, hmon, hhour, hmin, hsec]

/-- C16, witness: 22:15:37 on 17 October 2026 and 22:15:37 on 3 October of the
year `tm_year = 126 + 256`, written into arrays with different contents. -/
theorem co2_gen_usb_enc_key_day_independent_witness :
    zero8.length = 8 ∧ [9, 8, 7, 6, 5, 4, 3, 2].length = 8 ∧
    (⟨37, 15, 22, 17, 9, 126⟩ : Tm).tm_year % 256 = (⟨37, 15, 22, 3, 9, 382⟩ : Tm).tm_year % 256 ∧
    (⟨37, 15, 22, 17, 9, 126⟩ : Tm).tm_mon = (⟨37, 15, 22, 3, 9, 382⟩ : Tm).tm_mon ∧
    (⟨37, 15, 22, 17, 9, 126⟩ : Tm).tm_hour = (⟨37, 15, 22, 3, 9, 382⟩ : Tm).tm_hour ∧
    (⟨37, 15, 22, 17, 9, 126⟩ : Tm).tm_min = (⟨37, 15, 22, 3, 9, 382⟩ : Tm).tm_min ∧
    (⟨37, 15, 22, 17, 9, 126⟩ : Tm).tm_sec = (⟨37, 15, 22, 3, 9, 382⟩ : Tm).tm_sec ∧
    (co2_gen_usb_enc_key ⟨37, 15, 22, 17, 9, 126⟩ zero8 =
        co2_gen_usb_enc_key ⟨37, 15, 22, 3, 9, 382⟩ [9, 8, 7, 6, 5, 4, 3, 2] ∧
      ∀ (k : List Nat) (time_sec a b : Nat), k.length = 8 →
        gen_key_mix ((k.set 0 a).set 1 b) time_sec = gen_key_mix k time_sec) :=
  ⟨by decide, by decide, by decide, by decide, by decide, by decide, by decide,
    co2_gen_usb_enc_key_day_independent ⟨37, 15, 22, 17, 9, 126⟩ ⟨37, 15, 22, 3, 9, 382⟩ zero8
      [9, 8, 7, 6, 5, 4, 3, 2] (by decide) (by decide) (by decide) (by decide) (by decide)
      (by decide) (by decide)⟩

/-! ## C17: repeated bytes of the key -/

/-- C17: every key produced by `co2_gen_usb_enc_key` has `key[0] == key[2]` and
`key[4] == key[6]`, so it is of the form `[a, b, a, c, d, e, d, g]`, fixed by six
bytes. -/
theorem co2_gen_usb_enc_key_repeats (local_time : Tm) (usb_enc_key : List Nat)
    (h : usb_enc_key.length = 8) :
    rd (co2_gen_usb_enc_key local_time usb_enc_key) 0 =
      rd (co2_gen_usb_enc_key local_time usb_enc_key) 2 ∧
    rd (co2_gen_usb_enc_key local_time usb_enc_key) 4 =
      rd (co2_gen_usb_enc_key local_time usb_enc_key) 6 ∧
    ∃ a b c d e g, co2_gen_usb_enc_key local_time usb_enc_key = [a, b, a, c, d, e, d, g] := by
  rw [gen_key_bytes local_time usb_enc_key h]
  exact ⟨rfl, rfl, _, _, _, _, _, _, rfl⟩

/-- C17, witness: the key of 22:15:37 on 17 October 2026 is
`45 CF 45 B5 1A D0 1A EA`. -/
theorem co2_gen_usb_enc_key_repeats_witness :
    zero8.length = 8 ∧
    (rd (co2_gen_usb_enc_key ⟨37, 15, 22, 17, 9, 126⟩ zero8) 0 =
        rd (co2_gen_usb_enc_key ⟨37, 15, 22, 17, 9, 126⟩ zero8) 2 ∧
      rd (co2_gen_usb_enc_key ⟨37, 15, 22, 17, 9, 126⟩ zero8) 4 =
        rd (co2_gen_usb_enc_key ⟨37, 15, 22, 17, 9, 126⟩ zero8) 6 ∧
      ∃ a b c d e g,
        co2_gen_usb_enc_key ⟨37, 15, 22, 17, 9, 126⟩ zero8 = [a, b, a, c, d, e, d, g]) ∧
    co2_gen_usb_enc_key ⟨37, 15, 22, 17, 9, 126⟩ zero8 =
      [0x45, 0xCF, 0x45, 0xB5, 0x1A, 0xD0, 0x1A, 0xEA] :=
  ⟨by decide, co2_gen_usb_enc_key_repeats ⟨37, 15, 22, 17, 9, 126⟩ zero8 (by decide), by decide⟩

/-! ## C18: two step-1 values in the clear -/

/-- C18: for every local time, `key[5] == (tm_mon + 1 + tm_sec - 95) mod 256`, the
value of `time_sec` after the first pass, and `key[7] == (tm_year + 108) mod 256`,
the value the first pass leaves in cell 5. -/
theorem co2_gen_usb_enc_key_clear_bytes (local_time : Tm) (usb_enc_key : List Nat)
    (h : usb_enc_key.length = 8) :
    (rd (co2_gen_usb_enc_key local_time usb_enc_key) 5 : Int) =
      (local_time.tm_mon + 1 + local_time.tm_sec - 95) % 256 ∧
    (rd (co2_gen_usb_enc_key local_time usb_enc_key) 7 : Int) =
      (local_time.tm_year + 108) % 256 ∧
    rd (co2_gen_usb_enc_key local_time usb_enc_key) 5 =
      (gen_key_step1 local_time usb_enc_key).2 ∧
    rd (co2_gen_usb_enc_key local_time usb_enc_key) 7 =
      rd (gen_key_step1 local_time usb_enc_key).1 5 := by
  obtain ⟨a0, a1, a2, a3, a4, a5, a6, a7, rfl⟩ := length8_cases h
  rw [gen_key_bytes local_time _ h, gen_key_step1_bytes]
  simp only [rd, List.getD_cons_succ, List.getD_cons_zero, u8]
  refine ⟨?_, ?_, trivial, trivial⟩ <;> omega

/-- C18, witness: 22:15:37 on 17 October 2026, where `key[5] = 0xD0 = (10 + 37 - 95)
mod 256` and `key[7] = 0xEA = 126 + 108`. -/
theorem co2_gen_usb_enc_key_clear_bytes_witness :
    zero8.length = 8 ∧
    ((rd (co2_gen_usb_enc_key ⟨37, 15, 22, 17, 9, 126⟩ zero8) 5 : Int) =
        ((⟨37, 15, 22, 17, 9, 126⟩ : Tm).tm_mon + 1 + (⟨37, 15, 22, 17, 9, 126⟩ : Tm).tm_sec - 95)
          % 256 ∧
      (rd (co2_gen_usb_enc_key ⟨37, 15, 22, 17, 9, 126⟩ zero8) 7 : Int) =
        ((⟨37, 15, 22, 17, 9, 126⟩ : Tm).tm_year + 108) % 256 ∧
      rd (co2_gen_usb_enc_key ⟨37, 15, 22, 17, 9, 126⟩ zero8) 5 =
        (gen_key_step1 ⟨37, 15, 22, 17, 9, 126⟩ zero8).2 ∧
      rd (co2_gen_usb_enc_key ⟨37, 15, 22, 17, 9, 126⟩ zero8) 7 =
        rd (gen_key_step1 ⟨37, 15, 22, 17, 9, 126⟩ zero8).1 5) :=
  ⟨by decide, co2_gen_usb_enc_key_clear_bytes ⟨37, 15, 22, 17, 9, 126⟩ zero8 (by decide)⟩

/-! ## C19: a read that does not return 8 bytes -/

/-- C19: when `hid_read` answers anything other than 8, `co2_read_data` returns the
all-zero record (tag 0, value 0, checksum 0) with `valid == false`; the record is
the same whatever the buffer and the static key hold, nothing being decrypted,
and the only call made is the read. -/
theorem co2_read_data_short_read (device : co2_device) (res : Int) (data : List Nat) (s : Lib)
    (h : res ≠ 8) :
    (co2_read_data device res data s).1 = ⟨0, 0, 0, false⟩ ∧
    (co2_read_data device res data s).1.valid = false ∧
    (∀ (data2 key2 : List Nat),
      (co2_read_data device res data2 ⟨key2, s.calls⟩).1 = (co2_read_data device res data s).1) ∧
    (co2_read_data device res data s).2 = ⟨s.key, s.calls ++ [HidCall.hid_read device 8]⟩ := by
  have hrec : ∀ (d k : List Nat),
      (co2_read_data device res d ⟨k, s.calls⟩).1 = ⟨0, 0, 0, false⟩ := by
    intro d k
    simp only [co2_read_data, if_neg h]
  have hs : (co2_read_data device res data s).2 =
      ⟨s.key, s.calls ++ [HidCall.hid_read device 8]⟩ := by
    simp only [co2_read_data, if_neg h]
  have h0 : (co2_read_data device res data s).1 = ⟨0, 0, 0, false⟩ := hrec data s.key
  refine ⟨h0, ?_, ?_, hs⟩
  · rw [h0]
  · intro data2 key2
    rw [hrec data2 key2, h0]

/-- C19, witness: a short read of 5 bytes at program start. -/
theorem co2_read_data_short_read_witness :
    (5 : Int) ≠ 8 ∧
    ((co2_read_data 1 5 [240, 164, 162, 182, 81, 0, 0, 0] Lib.init).1 = ⟨0, 0, 0, false⟩ ∧
    (co2_read_data 1 5 [240, 164, 162, 182, 81, 0, 0, 0] Lib.init).1.valid = false ∧
    (∀ (data2 key2 : List Nat),
      (co2_read_data 1 5 data2 ⟨key2, Lib.init.calls⟩).1 =
        (co2_read_data 1 5 [240, 164, 162, 182, 81, 0, 0, 0] Lib.init).1) ∧
    (co2_read_data 1 5 [240, 164, 162, 182, 81, 0, 0, 0] Lib.init).2 =
      ⟨Lib.init.key, Lib.init.calls ++ [HidCall.hid_read 1 8]⟩) :=
  ⟨by decide, co2_read_data_short_read 1 5 [240, 164, 162, 182, 81, 0, 0, 0] Lib.init (by decide)⟩

/-! ## C20: array accesses stay in bounds -/

theorem shuffle_perm : shuffle.Perm (List.range 8) := by decide

theorem phase1_list (f0 f1 f2 f3 f4 f5 f6 f7 : Nat) :
    phase1 [f0, f1, f2, f3, f4, f5, f6, f7] = [f2, f4, f0, f7, f1, f6, f5, f3] := rfl

theorem phase1_perm (frame : List Nat) (hf : frame.length = 8) : (phase1 frame).Perm frame := by
  obtain ⟨f0, f1, f2, f3, f4, f5, f6, f7, rfl⟩ := length8_cases hf
  have h1 : phase1 [f0, f1, f2, f3, f4, f5, f6, f7] =
      shuffle.map (rd [f0, f1, f2, f3, f4, f5, f6, f7]) := rfl
  have h2 : [f0, f1, f2, f3, f4, f5, f6, f7] =
      (List.range 8).map (rd [f0, f1, f2, f3, f4, f5, f6, f7]) := rfl
  rw [h1]
  nth_rewrite 2 [h2]
  exact shuffle_perm.map _

theorem checked_eq (key frame : List Nat) (hk : key.length = 8) (hf : frame.length = 8) :
    co2_decrypt_buf_checked key frame = some (co2_decrypt_buf key frame) := by
  obtain ⟨k0, k1, k2, k3, k4, k5, k6, k7, rfl⟩ := length8_cases hk
  obtain ⟨f0, f1, f2, f3, f4, f5, f6, f7, rfl⟩ := length8_cases hf
  rfl

theorem index_bounds (i : Nat) (hi : i < 8) :
    rd shuffle i < 8 ∧ prevIdx i < 8 ∧ 0 ≤ ((i : Int) - 1 + 8) % 8 ∧ ((i : Int) - 1 + 8) % 8 < 8 := by
  refine ⟨?_, ?_, by omega, by omega⟩
  · interval_cases i <;> decide
  · unfold prevIdx; omega

theorem shuffle_once (j : Nat) (hj : j < 8) : ∃! i, i < 8 ∧ rd shuffle i = j := by
  interval_cases j
  · exact ⟨2, by decide, by rintro i ⟨hi, h⟩; interval_cases i <;> simp_all [rd, shuffle]⟩
  · exact ⟨4, by decide, by rintro i ⟨hi, h⟩; interval_cases i <;> simp_all [rd, shuffle]⟩
  · exact ⟨0, by decide, by rintro i ⟨hi, h⟩; interval_cases i <;> simp_all [rd, shuffle]⟩
  · exact ⟨7, by decide, by rintro i ⟨hi, h⟩; interval_cases i <;> simp_all [rd, shuffle]⟩
  · exact ⟨1, by decide, by rintro i ⟨hi, h⟩; interval_cases i <;> simp_all [rd, shuffle]⟩
  · exact ⟨6, by decide, by rintro i ⟨hi, h⟩; interval_cases i <;> simp_all [rd, shuffle]⟩
  · exact ⟨5, by decide, by rintro i ⟨hi, h⟩; interval_cases i <;> simp_all [rd, shuffle]⟩
  · exact ⟨3, by decide, by rintro i ⟨hi, h⟩; interval_cases i <;> simp_all [rd, shuffle]⟩

/-- C20: the table `shuffle` is a permutation of `0..7`; every index `shuffle[i]`
and `(i-1+8) % 8` for `i` in `0..7` lies in `0..7`; each position of `phase1` is
written exactly once; on 8-byte arrays the function with every access checked
returns the result of `co2_decrypt_buf`, so no access is out of bounds; and
`phase1` is a rearrangement of the input frame. -/
theorem co2_decrypt_buf_in_bounds (key frame : List Nat) (hk : key.length = 8)
    (hf : frame.length = 8) :
    shuffle.Perm (List.range 8) ∧
    (∀ i, i < 8 → rd shuffle i < 8 ∧ prevIdx i < 8 ∧
      0 ≤ ((i : Int) - 1 + 8) % 8 ∧ ((i : Int) - 1 + 8) % 8 < 8) ∧
    (∀ j, j < 8 → ∃! i, i < 8 ∧ rd shuffle i = j) ∧
    co2_decrypt_buf_checked key frame = some (co2_decrypt_buf key frame) ∧
    (phase1 frame).Perm frame :=
  ⟨shuffle_perm, index_bounds, shuffle_once, checked_eq key frame hk hf, phase1_perm frame hf⟩

/-- C20, witness: the key `01 .. 08` and the frame `0B DE 21 2C 37 42 4D 58`. -/
theorem co2_decrypt_buf_in_bounds_witness :
    [1, 2, 3, 4, 5, 6, 7, 8].length = 8 ∧ [11, 222, 33, 44, 55, 66, 77, 88].length = 8 ∧
    (shuffle.Perm (List.range 8) ∧
      (∀ i, i < 8 → rd shuffle i < 8 ∧ prevIdx i < 8 ∧
        0 ≤ ((i : Int) - 1 + 8) % 8 ∧ ((i : Int) - 1 + 8) % 8 < 8) ∧
      (∀ j, j < 8 → ∃! i, i < 8 ∧ rd shuffle i = j) ∧
      co2_decrypt_buf_checked [1, 2, 3, 4, 5, 6, 7, 8] [11, 222, 33, 44, 55, 66, 77, 88] =
        some (co2_decrypt_buf [1, 2, 3, 4, 5, 6, 7, 8] [11, 222, 33, 44, 55, 66, 77, 88]) ∧
      (phase1 [11, 222, 33, 44, 55, 66, 77, 88]).Perm [11, 222, 33, 44, 55, 66, 77, 88]) :=
  ⟨by decide, by decide,
    co2_decrypt_buf_in_bounds [1, 2, 3, 4, 5, 6, 7, 8] [11, 222, 33, 44, 55, 66, 77, 88]
      (by decide) (by decide)⟩

/-! ## Undoing `co2_decrypt_buf` step by step -/

theorem phase2_list (key : List Nat) (s0 s1 s2 s3 s4 s5 s6 s7 : Nat) :
    phase2 key [s0, s1, s2, s3, s4, s5, s6, s7] =
      [(s0 ^^^ rd key 0) % 256, (s1 ^^^ rd key 1) % 256, (s2 ^^^ rd key 2) % 256,
        (s3 ^^^ rd key 3) % 256, (s4 ^^^ rd key 4) % 256, (s5 ^^^ rd key 5) % 256,
        (s6 ^^^ rd key 6) % 256, (s7 ^^^ rd key 7) % 256] := rfl

theorem ctmp_list : ctmp = [0x84, 0x47, 0x56, 0xD6, 0x07, 0x93, 0x93, 0x56] := by decide

theorem specSalt_list : (List.range 8).map specSalt = ctmp := by decide

/-- The last loop on a buffer `[f0, .., f7]`, for a phase-3 array `[y0, .., y7]`. -/
theorem decrypt_list (key : List Nat) (f0 f1 f2 f3 f4 f5 f6 f7 y0 y1 y2 y3 y4 y5 y6 y7 : Nat)
    (h : phase3 (phase2 key (phase1 [f0, f1, f2, f3, f4, f5, f6, f7])) =
      [y0, y1, y2, y3, y4, y5, y6, y7]) :
    co2_decrypt_buf key [f0, f1, f2, f3, f4, f5, f6, f7] =
      [(0x100 + y0 - 0x84) % 256, (0x100 + y1 - 0x47) % 256, (0x100 + y2 - 0x56) % 256,
        (0x100 + y3 - 0xD6) % 256, (0x100 + y4 - 0x07) % 256, (0x100 + y5 - 0x93) % 256,
        (0x100 + y6 - 0x93) % 256, (0x100 + y7 - 0x56) % 256] := by
  simp only [co2_decrypt_buf, h, ctmp_list, List.range, List.range.loop, List.foldl, List.set, rd,
    List.getD_cons_zero, List.getD_cons_succ, and_ff, Nat.mod_mod]

theorem isBuf8_of_bytes {a0 a1 a2 a3 a4 a5 a6 a7 : Nat} (h0 : a0 < 256) (h1 : a1 < 256)
    (h2 : a2 < 256) (h3 : a3 < 256) (h4 : a4 < 256) (h5 : a5 < 256) (h6 : a6 < 256)
    (h7 : a7 < 256) : IsBuf8 [a0, a1, a2, a3, a4, a5, a6, a7] := by
  refine ⟨rfl, ?_⟩
  intro x hx
  simp only [List.mem_cons, List.mem_singleton, List.not_mem_nil, or_false] at hx
  rcases hx with h | h | h | h | h | h | h | h <;> rw [h] <;> assumption

theorem phase2_isBuf8 (key p1 : List Nat) (h : p1.length = 8) : IsBuf8 (phase2 key p1) := by
  obtain ⟨s0, s1, s2, s3, s4, s5, s6, s7, rfl⟩ := length8_cases h
  rw [phase2_list]
  exact isBuf8_of_bytes (Nat.mod_lt _ (by norm_num)) (Nat.mod_lt _ (by norm_num))
    (Nat.mod_lt _ (by norm_num)) (Nat.mod_lt _ (by norm_num)) (Nat.mod_lt _ (by norm_num))
    (Nat.mod_lt _ (by norm_num)) (Nat.mod_lt _ (by norm_num)) (Nat.mod_lt _ (by norm_num))

theorem phase3_isBuf8 (p2 : List Nat) (h : p2.length = 8) : IsBuf8 (phase3 p2) := by
  obtain ⟨s0, s1, s2, s3, s4, s5, s6, s7, rfl⟩ := length8_cases h
  rw [phase3_list]
  exact isBuf8_of_bytes (Nat.mod_lt _ (by norm_num)) (Nat.mod_lt _ (by norm_num))
    (Nat.mod_lt _ (by norm_num)) (Nat.mod_lt _ (by norm_num)) (Nat.mod_lt _ (by norm_num))
    (Nat.mod_lt _ (by norm_num)) (Nat.mod_lt _ (by norm_num)) (Nat.mod_lt _ (by norm_num))

theorem invSalt_list (p0 p1 p2 p3 p4 p5 p6 p7 : Nat) :
    invSalt [p0, p1, p2, p3, p4, p5, p6, p7] =
      [(p0 + 0x84) % 256, (p1 + 0x47) % 256, (p2 + 0x56) % 256, (p3 + 0xD6) % 256,
        (p4 + 0x07) % 256, (p5 + 0x93) % 256, (p6 + 0x93) % 256, (p7 + 0x56) % 256] := by
  have h0 : specSalt 0 = 0x84 := by decide
  have h1 : specSalt 1 = 0x47 := by decide
  have h2 : specSalt 2 = 0x56 := by decide
  have h3 : specSalt 3 = 0xD6 := by decide
  have h4 : specSalt 4 = 0x07 := by decide
  have h5 : specSalt 5 = 0x93 := by decide
  have h6 : specSalt 6 = 0x93 := by decide
  have h7 : specSalt 7 = 0x56 := by decide
  simp only [invSalt, List.range, List.range.loop, List.map, rd, List.getD_cons_zero,
    List.getD_cons_succ, h0, h1, h2, h3, h4, h5, h6, h7]

theorem invXor_list (key : List Nat) (s0 s1 s2 s3 s4 s5 s6 s7 : Nat) :
    invXor key [s0, s1, s2, s3, s4, s5, s6, s7] =
      [s0 ^^^ rd key 0, s1 ^^^ rd key 1, s2 ^^^ rd key 2, s3 ^^^ rd key 3, s4 ^^^ rd key 4,
        s5 ^^^ rd key 5, s6 ^^^ rd key 6, s7 ^^^ rd key 7] := rfl

theorem invShuffle_list (s0 s1 s2 s3 s4 s5 s6 s7 : Nat) :
    invShuffle [s0, s1, s2, s3, s4, s5, s6, s7] = [s2, s4, s0, s7, s1, s6, s5, s3] := rfl

theorem xor_xor_cancel (a k : Nat) : a ^^^ k ^^^ k = a := by
  rw [Nat.xor_assoc, Nat.xor_self, Nat.xor_zero]

/-- Undoing the last loop. -/
theorem invSalt_decrypt (key frame : List Nat) (hf : frame.length = 8) :
    invSalt (co2_decrypt_buf key frame) = phase3 (phase2 key (phase1 frame)) := by
  obtain ⟨f0, f1, f2, f3, f4, f5, f6, f7, rfl⟩ := length8_cases hf
  have hP := phase3_isBuf8 (phase2 key (phase1 [f0, f1, f2, f3, f4, f5, f6, f7]))
    (phase2_isBuf8 key (phase1 [f0, f1, f2, f3, f4, f5, f6, f7]) (by rw [phase1_list]; rfl)).1
  obtain ⟨y0, y1, y2, y3, y4, y5, y6, y7, hy, h0, h1, h2, h3, h4, h5, h6, h7⟩ := hP.cases
  rw [decrypt_list key _ _ _ _ _ _ _ _ _ _ _ _ _ _ _ _ hy, hy, invSalt_list]
  refine congrArg₂ _ ?_ (congrArg₂ _ ?_ (congrArg₂ _ ?_ (congrArg₂ _ ?_ (congrArg₂ _ ?_
    (congrArg₂ _ ?_ (congrArg₂ _ ?_ (congrArg₂ _ ?_ rfl))))))) <;> omega

/-- Undoing the third loop. -/
theorem invRot_phase3 (x : List Nat) (hx : IsBuf8 x) : invRot (phase3 x) = x := by
  rw [invRot, phase3_eq_rotr64 x hx, wordBE_bytesBE _ (rotr64_lt _),
    rotl64_rotr64 _ (wordBE_lt x hx), bytesBE_wordBE x hx]

/-- Redoing the third loop. -/
theorem phase3_invRot (q : List Nat) (hq : IsBuf8 q) : phase3 (invRot q) = q := by
  rw [invRot, phase3_eq_rotr64 _ (bytesBE_isBuf8 _), wordBE_bytesBE _ (rotl64_lt _),
    rotr64_rotl64 _ (wordBE_lt q hq), bytesBE_wordBE q hq]

/-- Undoing the second loop. -/
theorem invXor_phase2 (key s : List Nat) (hk : IsBuf8 key) (hs : IsBuf8 s) :
    invXor key (phase2 key s) = s := by
  obtain ⟨k0, k1, k2, k3, k4, k5, k6, k7, rfl, hk0, hk1, hk2, hk3, hk4, hk5, hk6, hk7⟩ := hk.cases
  obtain ⟨s0, s1, s2, s3, s4, s5, s6, s7, rfl, hs0, hs1, hs2, hs3, hs4, hs5, hs6, hs7⟩ := hs.cases
  rw [phase2_list, invXor_list]
  simp only [rd, List.getD_cons_zero, List.getD_cons_succ, xor_byte, xor_xor_cancel, *]

/-- Redoing the second loop. -/
theorem phase2_invXor (key r : List Nat) (hk : IsBuf8 key) (hr : IsBuf8 r) :
    IsBuf8 (invXor key r) ∧ phase2 key (invXor key r) = r := by
  obtain ⟨k0, k1, k2, k3, k4, k5, k6, k7, rfl, hk0, hk1, hk2, hk3, hk4, hk5, hk6, hk7⟩ := hk.cases
  obtain ⟨r0, r1, r2, r3, r4, r5, r6, r7, rfl, hr0, hr1, hr2, hr3, hr4, hr5, hr6, hr7⟩ := hr.cases
  rw [invXor_list, phase2_list]
  simp only [rd, List.getD_cons_zero, List.getD_cons_succ, xor_xor_cancel]
  refine ⟨isBuf8_of_bytes (xor_lt_256 hr0 hk0) (xor_lt_256 hr1 hk1) (xor_lt_256 hr2 hk2)
    (xor_lt_256 hr3 hk3) (xor_lt_256 hr4 hk4) (xor_lt_256 hr5 hk5) (xor_lt_256 hr6 hk6)
    (xor_lt_256 hr7 hk7), ?_⟩
  simp only [Nat.mod_eq_of_lt, *]

theorem phase1_isBuf8 (f : List Nat) (hf : IsBuf8 f) : IsBuf8 (phase1 f) := by
  obtain ⟨f0, f1, f2, f3, f4, f5, f6, f7, rfl, h0, h1, h2, h3, h4, h5, h6, h7⟩ := hf.cases
  rw [phase1_list]
  exact isBuf8_of_bytes h2 h4 h0 h7 h1 h6 h5 h3

theorem invShuffle_phase1 (f : List Nat) (hf : f.length = 8) : invShuffle (phase1 f) = f := by
  obtain ⟨f0, f1, f2, f3, f4, f5, f6, f7, rfl⟩ := length8_cases hf
  rfl

theorem invSalt_isBuf8 (p : List Nat) (hp : p.length = 8) : IsBuf8 (invSalt p) := by
  obtain ⟨p0, p1, p2, p3, p4, p5, p6, p7, rfl⟩ := length8_cases hp
  rw [invSalt_list]
  exact isBuf8_of_bytes (Nat.mod_lt _ (by norm_num)) (Nat.mod_lt _ (by norm_num))
    (Nat.mod_lt _ (by norm_num)) (Nat.mod_lt _ (by norm_num)) (Nat.mod_lt _ (by norm_num))
    (Nat.mod_lt _ (by norm_num)) (Nat.mod_lt _ (by norm_num)) (Nat.mod_lt _ (by norm_num))

/-- The inverse transform undoes `co2_decrypt_buf`. -/
theorem invDecrypt_decrypt (key f : List Nat) (hk : IsBuf8 key) (hf : IsBuf8 f) :
    invDecrypt key (co2_decrypt_buf key f) = f := by
  have h1 := phase1_isBuf8 f hf
  rw [invDecrypt, invSalt_decrypt key f hf.1, invRot_phase3 _ (phase2_isBuf8 key _ h1.1),
    invXor_phase2 key _ hk h1, invShuffle_phase1 f hf.1]

/-- The inverse transform gives a frame, and `co2_decrypt_buf` undoes it. -/
theorem decrypt_invDecrypt (key p : List Nat) (hk : IsBuf8 key) (hp : IsBuf8 p) :
    IsBuf8 (invDecrypt key p) ∧ co2_decrypt_buf key (invDecrypt key p) = p := by
  have hq := invSalt_isBuf8 p hp.1
  have hr : IsBuf8 (invRot (invSalt p)) := bytesBE_isBuf8 _
  obtain ⟨ht, h2⟩ := phase2_invXor key _ hk hr
  have h3 := phase3_invRot _ hq
  unfold invDecrypt
  obtain ⟨t0, t1, t2, t3, t4, t5, t6, t7, et, b0, b1, b2, b3, b4, b5, b6, b7⟩ := ht.cases
  obtain ⟨p0, p1, p2, p3, p4, p5, p6, p7, rfl, c0, c1, c2, c3, c4, c5, c6, c7⟩ := hp.cases
  rw [et] at h2 ⊢
  rw [invShuffle_list]
  refine ⟨isBuf8_of_bytes b2 b4 b0 b7 b1 b6 b5 b3, ?_⟩
  have hy : phase3 (phase2 key (phase1 [t2, t4, t0, t7, t1, t6, t5, t3])) =
      invSalt [p0, p1, p2, p3, p4, p5, p6, p7] := by
    rw [phase1_list, h2, h3]
  rw [invSalt_list] at hy
  rw [decrypt_list key _ _ _ _ _ _ _ _ _ _ _ _ _ _ _ _ hy]
  refine congrArg₂ _ ?_ (congrArg₂ _ ?_ (congrArg₂ _ ?_ (congrArg₂ _ ?_ (congrArg₂ _ ?_
    (congrArg₂ _ ?_ (congrArg₂ _ ?_ (congrArg₂ _ ?_ rfl))))))) <;> omega

/-! ## C15: `co2_decrypt_buf` is a bijection -/

/-- C15: for every 8-byte key, `co2_decrypt_buf` is a bijection on 8-byte frames:
different frames have different plaintexts, every 8-byte plaintext is the
decryption of exactly one frame, and the inverse is `invDecrypt` (add the
nibble-swapped salt modulo 256, rotate the 64-bit word left by 3, XOR the key,
undo the shuffle). -/
theorem co2_decrypt_buf_bijective (key : List Nat) (hk : IsBuf8 key) :
    (∀ f g, IsBuf8 f → IsBuf8 g → co2_decrypt_buf key f = co2_decrypt_buf key g → f = g) ∧
    (∀ p, IsBuf8 p → ∃! f, IsBuf8 f ∧ co2_decrypt_buf key f = p) ∧
    (∀ f, IsBuf8 f → IsBuf8 (co2_decrypt_buf key f) ∧
      invDecrypt key (co2_decrypt_buf key f) = f) ∧
    (∀ p, IsBuf8 p → IsBuf8 (invDecrypt key p) ∧ co2_decrypt_buf key (invDecrypt key p) = p) := by
  refine ⟨?_, ?_, ?_, ?_⟩
  · intro f g hf hg h
    rw [← invDecrypt_decrypt key f hk hf, ← invDecrypt_decrypt key g hk hg, h]
  · intro p hp
    obtain ⟨hb, hd⟩ := decrypt_invDecrypt key p hk hp
    refine ⟨invDecrypt key p, ⟨hb, hd⟩, ?_⟩
    rintro f ⟨hf, hfp⟩
    rw [← hfp, invDecrypt_decrypt key f hk hf]
  · intro f hf
    exact ⟨co2_decrypt_buf_isBuf8 key f hf.1, invDecrypt_decrypt key f hk hf⟩
  · intro p hp
    exact decrypt_invDecrypt key p hk hp

/-- C15, witness: the key of 22:15:37 on 17 October 2026. -/
theorem co2_decrypt_buf_bijective_witness :
    IsBuf8 [69, 207, 69, 181, 26, 208, 26, 234] ∧
    ((∀ f g, IsBuf8 f → IsBuf8 g →
        co2_decrypt_buf [69, 207, 69, 181, 26, 208, 26, 234] f =
          co2_decrypt_buf [69, 207, 69, 181, 26, 208, 26, 234] g → f = g) ∧
      (∀ p, IsBuf8 p →
        ∃! f, IsBuf8 f ∧ co2_decrypt_buf [69, 207, 69, 181, 26, 208, 26, 234] f = p) ∧
      (∀ f, IsBuf8 f → IsBuf8 (co2_decrypt_buf [69, 207, 69, 181, 26, 208, 26, 234] f) ∧
        invDecrypt [69, 207, 69, 181, 26, 208, 26, 234]
          (co2_decrypt_buf [69, 207, 69, 181, 26, 208, 26, 234] f) = f) ∧
      (∀ p, IsBuf8 p → IsBuf8 (invDecrypt [69, 207, 69, 181, 26, 208, 26, 234] p) ∧
        co2_decrypt_buf [69, 207, 69, 181, 26, 208, 26, 234]
          (invDecrypt [69, 207, 69, 181, 26, 208, 26, 234] p) = p)) ∧
    invDecrypt [69, 207, 69, 181, 26, 208, 26, 234] [0x50, 0x03, 0xE8, 0x3B, 0x0d, 0, 0, 0] =
      [181, 190, 231, 92, 158, 128, 76, 61] ∧
    co2_decrypt_buf [69, 207, 69, 181, 26, 208, 26, 234] [181, 190, 231, 92, 158, 128, 76, 61] =
      [0x50, 0x03, 0xE8, 0x3B, 0x0d, 0, 0, 0] :=
  ⟨by decide, co2_decrypt_buf_bijective [69, 207, 69, 181, 26, 208, 26, 234] (by decide),
    by decide, by decide⟩

end HoltekCO2
